import Mathlib

/-!
Verification of the text-to-structure core of the mcp-git-blame repository:
the blame porcelain parser (src/blame-parser.ts), the line-range filter and
the commit-detail assembly (src/git-service.ts).

Strings are embedded as lists of characters (`Str`), so that every JS string
operation used by the source (split, startsWith, substring, join, trim) has a
directly computable counterpart.  JS splits on a newline are `List.splitOn`
on the character list; `Array.prototype.join` with a newline is `joinLines`.
The JS whitespace class is modelled by its ASCII members, which are the only
whitespace characters the parsed git output contains.
-/

abbrev Str := List Char

/-- Character list of a string literal. -/
def lit (s : String) : Str := s.data

/-- ASCII members of the JS whitespace class (regexp class backslash-s and
String.prototype.trim). -/
def wsChar (c : Char) : Bool :=
  c = ' ' || c = '\t' || c = '\r' || c = '\n' || c = '\x0b' || c = '\x0c'

/-- JS String.prototype.trim restricted to ASCII whitespace. -/
def trimChars (cs : Str) : Str :=
  ((cs.dropWhile wsChar).reverse.dropWhile wsChar).reverse

/-- JS Array.prototype.join with a newline separator. -/
def joinLines : List Str → Str
  | [] => []
  | [l] => l
  | l :: ls => l ++ '\n' :: joinLines ls

/-- Decimal value of a digit run, as computed by parseInt on an all-digit
string. -/
def natOfDigits (cs : Str) : Nat :=
  cs.foldl (fun a c => a * 10 + (c.toNat - 48)) 0

/-- JS `x || d` for an optional number: undefined and 0 are falsy. -/
def jsOrNat (v : Option Nat) (d : Nat) : Nat :=
  match v with
  | none => d
  | some 0 => d
  | some n => n

/-- JS `a || b` for strings: the empty string is falsy. -/
def jsOrStr (a b : Str) : Str := if a = [] then b else a

/-- Hex-hash character class of the header regexp, [0-9a-f] with the
case-insensitive flag. -/
def hexDigit (c : Char) : Bool :=
  c.isDigit || ('a' ≤ c && c ≤ 'f') || ('A' ≤ c && c ≤ 'F')

/-- The header regexp of BlameParser.parseBlameOutput (blame-parser.ts:19):
caret ([0-9a-f]{8,40}) ws+ d+ ws+ (d+) ws+ d+, case-insensitive, not anchored
at the end.  Because the hash, whitespace and digit character classes are
pairwise disjoint, backtracking never helps and each quantified class matches
exactly its maximal run; the regexp matches iff the maximal leading hex run
has length 8..40 and is followed by three whitespace-separated digit runs.
Returns the two captured groups: the hash and the final line number. -/
def matchHeader (cs : Str) : Option (Str × Nat) :=
  let hx := cs.takeWhile hexDigit
  let r1 := cs.dropWhile hexDigit
  if 8 ≤ hx.length ∧ hx.length ≤ 40 ∧ r1.takeWhile wsChar ≠ [] then
    let r2 := r1.dropWhile wsChar
    let d1 := r2.takeWhile Char.isDigit
    let r3 := r2.dropWhile Char.isDigit
    if d1 ≠ [] ∧ r3.takeWhile wsChar ≠ [] then
      let r4 := r3.dropWhile wsChar
      let d2 := r4.takeWhile Char.isDigit
      let r5 := r4.dropWhile Char.isDigit
      if d2 ≠ [] ∧ r5.takeWhile wsChar ≠ [] then
        let r6 := r5.dropWhile wsChar
        let d3 := r6.takeWhile Char.isDigit
        if d3 ≠ [] then some (hx, natOfDigits d2) else none
      else none
    else none
  else none

/-- GitBlameLine (types.ts).  `line`, `hash` and `content` are always present
on an emitted record (the accumulator is only created by a header line, which
sets hash and line, and only finalized by a content line); the TS cast
`current as GitBlameLine` leaves the remaining fields undefined when the
corresponding metadata line was absent, modelled as Option. -/
structure GitBlameLine where
  line : Nat
  hash : Str
  author : Option Str
  authorEmail : Option Str
  authorTime : Option Str
  authorTimeZone : Option Str
  committer : Option Str
  committerEmail : Option Str
  committerTime : Option Str
  committerTimeZone : Option Str
  summary : Option Str
  previousHash : Option Str
  previousFilename : Option Str
  filename : Option Str
  content : Str
deriving DecidableEq

/-- The `current` accumulator of parseBlameOutput: Partial GitBlameLine, only
ever constructed at a header line with hash and line set. -/
structure BlameAcc where
  hash : Str
  line : Nat
  author : Option Str
  authorEmail : Option Str
  authorTime : Option Str
  authorTimeZone : Option Str
  committer : Option Str
  committerEmail : Option Str
  committerTime : Option Str
  committerTimeZone : Option Str
  summary : Option Str
  previousHash : Option Str
  previousFilename : Option Str
  filename : Option Str
  content : Option Str
deriving DecidableEq

/-- Fresh accumulator created at a header line (blame-parser.ts:23). -/
def initAcc (h : Str) (n : Nat) : BlameAcc :=
  ⟨h, n, none, none, none, none, none, none, none, none, none, none, none, none, none⟩

/-- The key-value metadata branch of the parse loop (blame-parser.ts:32-78):
each fixed literal line kind assigns the remainder after its one-word
leading marker into the matching field; `previous` splits its remainder on
single spaces into a hash and a rejoined filename; an unrecognized line
leaves the accumulator unchanged (the loop body just falls through). -/
def applyMeta (raw : Str) (p : BlameAcc) : BlameAcc :=
  if (lit "author ").isPrefixOf raw then { p with author := some (raw.drop 7) }
  else if (lit "author-mail ").isPrefixOf raw then { p with authorEmail := some (raw.drop 12) }
  else if (lit "author-time ").isPrefixOf raw then { p with authorTime := some (raw.drop 12) }
  else if (lit "author-tz ").isPrefixOf raw then { p with authorTimeZone := some (raw.drop 10) }
  else if (lit "committer ").isPrefixOf raw then { p with committer := some (raw.drop 10) }
  else if (lit "committer-mail ").isPrefixOf raw then { p with committerEmail := some (raw.drop 15) }
  else if (lit "committer-time ").isPrefixOf raw then { p with committerTime := some (raw.drop 15) }
  else if (lit "committer-tz ").isPrefixOf raw then { p with committerTimeZone := some (raw.drop 13) }
  else if (lit "summary ").isPrefixOf raw then { p with summary := some (raw.drop 8) }
  else if (lit "previous ").isPrefixOf raw then
    let prev := (raw.drop 9).splitOn ' '
    { p with previousHash := some (prev.headD []),
             previousFilename := some ([' '].intercalate prev.tail) }
  else if (lit "filename ").isPrefixOf raw then { p with filename := some (raw.drop 9) }
  else p

/-- Record emitted when a content line finalizes the accumulator
(blame-parser.ts:81-88).  The TS finalize guard (line is a number and content
is defined) always holds there: the accumulator carries a numeric line from
its creating header and content was just assigned. -/
def finalizeAcc (p : BlameAcc) (content : Str) : GitBlameLine :=
  ⟨p.line, p.hash, p.author, p.authorEmail, p.authorTime, p.authorTimeZone,
   p.committer, p.committerEmail, p.committerTime, p.committerTimeZone,
   p.summary, p.previousHash, p.previousFilename, p.filename, content⟩

/-- The forward scan of BlameParser.parseBlameOutput (blame-parser.ts:11-91)
over the physical lines, carrying the nullable accumulator.  In the source
the metadata prefixes are tested before the tab test; since no metadata
marker starts with a tab the two orders agree, and the tab case is written
first here. -/
def parseLoop : List Str → Option BlameAcc → List GitBlameLine
  | [], _ => []
  | raw :: rest, cur =>
    if raw = [] then parseLoop rest cur
    else
      match matchHeader raw with
      | some (h, n) => parseLoop rest (some (initAcc h n))
      | none =>
        match cur with
        | none => parseLoop rest none
        | some p =>
          if (lit "\t").isPrefixOf raw then
            finalizeAcc p (raw.drop 1) :: parseLoop rest none
          else
            parseLoop rest (some (applyMeta raw p))

/-- BlameParser.parseBlameOutput (blame-parser.ts:4-94): split the raw blame
output on newlines and run the accumulator scan. -/
def parseBlameOutput (blameOutput : Str) : List GitBlameLine :=
  parseLoop (blameOutput.splitOn '\n') none

/-- The line-range filter of GitService.getBlameInfo (git-service.ts:63-72):
when at least one bound was supplied, keep the records whose line lies in
[lineFrom or 1, lineTo or record count], where the JS fallbacks treat
undefined and 0 as missing; with no bound supplied the parsed list is
returned unchanged. -/
def filterBlame (blameLines : List GitBlameLine) (lineFrom lineTo : Option Nat) :
    List GitBlameLine :=
  if lineFrom.isSome || lineTo.isSome then
    let startLine := jsOrNat lineFrom 1
    let endLine := jsOrNat lineTo blameLines.length
    blameLines.filter (fun l => decide (startLine ≤ l.line ∧ l.line ≤ endLine))
  else blameLines

/-- Maximum line number present in a parsed attribution list, 0 when the list
is empty.  Modelled from the spec: the default the spec assigns to a missing
upper bound; the code itself never computes this quantity. -/
def specMaxLine (ls : List GitBlameLine) : Nat :=
  ls.foldl (fun a l => max a l.line) 0

/-- One per-file section of a split multi-file diff (git-service.ts:333). -/
structure FilePatch where
  aPath : Str
  bPath : Str
  patch : Str
deriving DecidableEq

/-- Rightmost split of `cs` as pre ++ sep ++ suf with a nonempty suffix. -/
def lastPathSplit (sep : Str) : Str → Option (Str × Str)
  | [] => none
  | c :: rest =>
    match lastPathSplit sep rest with
    | some (p, s) => some (c :: p, s)
    | none =>
      if sep.isPrefixOf (c :: rest) ∧ (c :: rest).drop sep.length ≠ [] then
        some ([], (c :: rest).drop sep.length)
      else none

/-- The diff section header regexp (git-service.ts:349): caret then the
literal diff header marker, then (.+) space b slash (.+), anchored at the
end.  The greedy first group takes everything up to the rightmost separator
occurrence that still leaves the second group nonempty, and both groups must
be nonempty; lines arriving here never contain a newline, so the
dot-excludes-newline restriction is vacuous. -/
def matchDiffHeader (s : Str) : Option (Str × Str) :=
  if (lit "diff --git a/").isPrefixOf s then
    match lastPathSplit (lit " b/") (s.drop 13) with
    | some (g1, g2) => if g1 ≠ [] then some (g1, g2) else none
    | none => none
  else none

/-- The flush closure of the patch splitter (git-service.ts:340-347): a
pending section is closed by joining its buffered lines with newlines. -/
def flushSection : Option (Str × Str) → List Str → List FilePatch
  | none, _ => []
  | some (a, b), buf => [⟨a, b, joinLines buf⟩]

/-- The line scan of the patch splitter (git-service.ts:350-361): a header
line flushes the pending section and opens a new one buffering the header
itself; other lines append to the open buffer and are dropped before the
first header; the final section is flushed at end of input. -/
def splitScan : List Str → Option (Str × Str) → List Str → List FilePatch
  | [], cur, buf => flushSection cur buf
  | l :: ls, cur, buf =>
    match matchDiffHeader l with
    | some (a, b) => flushSection cur buf ++ splitScan ls (some (a, b)) [l]
    | none =>
      match cur with
      | some ab => splitScan ls (some ab) (buf ++ [l])
      | none => splitScan ls none buf

/-- The patch splitter over a full diff text (git-service.ts:336-361). -/
def splitPatches (s : Str) : List FilePatch :=
  splitScan (s.splitOn '\n') none []

/-- The path normalization of git-service.ts:363: drop one leading a-slash
and then one leading b-slash, each only when present. -/
def stripSide (p : Str) : Str :=
  let p1 := if (lit "a/").isPrefixOf p then p.drop 2 else p
  if (lit "b/").isPrefixOf p1 then p1.drop 2 else p1

/-- JS Map.get: value at the first (unique) occurrence of the key. -/
def assocGet {β : Type} : List (Str × β) → Str → Option β
  | [], _ => none
  | (k0, v) :: m, k => if k0 = k then some v else assocGet m k

/-- JS Map.set: update an existing key in place, else append. -/
def assocSet {β : Type} : List (Str × β) → Str → β → List (Str × β)
  | [], k, v => [(k, v)]
  | (k0, v0) :: m, k, v =>
    if k0 = k then (k0, v) :: m else (k0, v0) :: assocSet m k v

/-- One step of building the patch index (git-service.ts:366-372): insert the
stripped a-side and b-side paths, when nonempty, as keys for the section
text; a later section overwrites an earlier claim to the same key. -/
def patchIndexStep (m : List (Str × Str)) (fp : FilePatch) : List (Str × Str) :=
  let aKey := stripSide fp.aPath
  let bKey := stripSide fp.bPath
  let m1 := if aKey ≠ [] then assocSet m aKey fp.patch else m
  if bKey ≠ [] then assocSet m1 bKey fp.patch else m1

/-- The path-to-patch index over all split sections (git-service.ts:366-372). -/
def buildPatchIndex (fps : List FilePatch) : List (Str × Str) :=
  fps.foldl patchIndexStep []

/-- GitChangedFile (types.ts): one changed path of a revision. -/
structure ChangedFile where
  status : Str
  path : Str
  oldPath : Option Str
  insertions : Option Nat
  deletions : Option Nat
  patch : Option Str
deriving DecidableEq

/-- A ChangedFile as first created for a path (status empty, nothing else). -/
def emptyChange (p : Str) : ChangedFile := ⟨[], p, none, none, none, none⟩

/-- One name-status line merged into the per-path map (git-service.ts:236-256).
Blank lines and lines with fewer than two tab-separated fields are skipped;
the first character of the first field is the status; rename and copy
records carry old path then new path (a missing or empty third field falls
back to the second). -/
def applyNameStatusLine (m : List (Str × ChangedFile)) (line : Str) :
    List (Str × ChangedFile) :=
  if trimChars line = [] then m
  else
    let parts := line.splitOn '\t'
    if 2 ≤ parts.length then
      let statusRaw := parts.headD []
      let status := statusRaw.take 1
      if status = lit "R" ∨ status = lit "C" then
        let oldPath := parts.getD 1 []
        let newPath := jsOrStr (parts.getD 2 []) (parts.getD 1 [])
        let existing := (assocGet m newPath).getD (emptyChange newPath)
        assocSet m newPath { existing with status := status, oldPath := some oldPath }
      else
        let p := parts.getD 1 []
        let existing := (assocGet m p).getD (emptyChange p)
        assocSet m p { existing with status := status }
    else m

/-- JS parseInt on a numstat count field.  Git emits only decimal digit runs
there (the binary sentinel is handled by the caller); a run of digits parses
to its decimal value, and the NaN produced on any other input never arises
from the guarded inputs and is modelled as absent. -/
def jsParseInt (s : Str) : Option Nat :=
  if s ≠ [] ∧ s.all Char.isDigit then some (natOfDigits s) else none

/-- JS falsiness of an optional string: undefined and the empty string. -/
def jsFalsyStr (o : Option Str) : Bool :=
  match o with
  | none => true
  | some s => s = []

/-- The value a numstat line stores for its path (git-service.ts:274-277):
the entry found in the map (or a fresh one), its numeric fields always
(re)filled, and the old path backfilled only when truthy and not already
truthy on the entry. -/
def numstatMergeValue (existing : ChangedFile) (ins del : Option Nat)
    (oldPath : Option Str) : ChangedFile :=
  let withCounts := { existing with insertions := ins, deletions := del }
  match oldPath with
  | some op =>
    if op ≠ [] ∧ jsFalsyStr withCounts.oldPath then
      { withCounts with oldPath := some op }
    else withCounts
  | none => withCounts

/-- One numstat line merged into the per-path map (git-service.ts:259-280).
Blank lines and lines with fewer than three tab-separated fields are
skipped; a fourth field signals the rename form old-tab-new; a count of "-"
(binary) is an absent number; the status field is never touched. -/
def applyNumstatLine (m : List (Str × ChangedFile)) (line : Str) :
    List (Str × ChangedFile) :=
  if trimChars line = [] then m
  else
    let parts := line.splitOn '\t'
    if 3 ≤ parts.length then
      let insStr := parts.headD []
      let delStr := parts.getD 1 []
      let oldPath : Option Str :=
        if 4 ≤ parts.length then some (parts.getD 2 []) else none
      let path := if 4 ≤ parts.length then parts.getD 3 [] else parts.getD 2 []
      let ins := if insStr = lit "-" then none else jsParseInt insStr
      let del := if delStr = lit "-" then none else jsParseInt delStr
      assocSet m path
        (numstatMergeValue ((assocGet m path).getD (emptyChange path)) ins del oldPath)
    else m

/-- The merged per-path map of getCommitDetail (git-service.ts:233-280):
name-status lines first, then numstat lines, into one insertion-ordered map
keyed by current path. -/
def buildPathMap (nameStatusOut numstatOut : Str) : List (Str × ChangedFile) :=
  let m1 := (nameStatusOut.splitOn '\n').foldl applyNameStatusLine []
  (numstatOut.splitOn '\n').foldl applyNumstatLine m1

/-- Array.from(pathToChange.values()) (git-service.ts:282). -/
def changedFilesOf (nameStatusOut numstatOut : Str) : List ChangedFile :=
  (buildPathMap nameStatusOut numstatOut).map (·.2)

/-- The insertion total of git-service.ts:286-288: sum the numeric insertion
counts, skipping entries whose count is absent. -/
def insertionsOf (fs : List ChangedFile) : Nat :=
  fs.foldl (fun a f => match f.insertions with | some n => a + n | none => a) 0

/-- The deletion total of git-service.ts:286-289. -/
def deletionsOf (fs : List ChangedFile) : Nat :=
  fs.foldl (fun a f => match f.deletions with | some n => a + n | none => a) 0

/-- filesChanged (git-service.ts:283): the entry count of the merged map. -/
def filesChangedOf (fs : List ChangedFile) : Nat := fs.length

/-- The summary and message accumulation of the header scan
(git-service.ts:220-228), the only branches of that scan that touch the two
fields; a body line is one carrying the 4-space indent, which no other
recognized line kind can carry.  A nonempty remainder is appended with a
newline and claims the summary, trimmed, while the summary is still falsy;
an empty remainder appends a bare newline. -/
def msgStep (st : Str × Str) (line : Str) : Str × Str :=
  if (lit "    ").isPrefixOf line then
    let msgLine := line.drop 4
    if msgLine ≠ [] then
      (if st.1 = [] then trimChars msgLine else st.1, st.2 ++ msgLine ++ ['\n'])
    else (st.1, st.2 ++ ['\n'])
  else st

/-- Summary and message of the parsed header text (git-service.ts:179-230):
scan the header lines and trim the accumulated message at the end. -/
def parseSummaryMessage (headerInfo : Str) : Str × Str :=
  let st := (headerInfo.splitOn '\n').foldl msgStep ([], [])
  (st.1, trimChars st.2)

/-- The message body lines among a list of header lines: those carrying the
4-space indent, with the indent stripped. -/
def bodyOfLines (lines : List Str) : List Str :=
  (lines.filter (fun l => (lit "    ").isPrefixOf l)).map (fun l => l.drop 4)

/-- The message body lines of a header text. -/
def bodyLinesOf (headerInfo : Str) : List Str :=
  bodyOfLines (headerInfo.splitOn '\n')

/-- The summary the scan converges to: the first body line whose trimmed
form is nonempty, trimmed (empty when there is none). -/
def firstBodySummary (body : List Str) : Str :=
  trimChars ((body.filter (fun l => trimChars l ≠ [])).headD [])

/-- Modelled from the spec: the summary the spec describes, namely the first
non-empty body line, trimmed (empty when there is none). -/
def specSummaryOf (headerInfo : Str) : Str :=
  trimChars (((bodyLinesOf headerInfo).filter (fun l => l ≠ [])).headD [])

/-- GitCommitDetail (types.ts). -/
structure GitCommitDetail where
  hash : Str
  shortHash : Str
  author : Str
  authorEmail : Str
  authorTime : Str
  authorTimeZone : Str
  committer : Str
  committerEmail : Str
  committerTime : Str
  committerTimeZone : Str
  summary : Str
  message : Str
  parentHashes : List Str
  treeHash : Str
  filesChanged : Nat
  insertions : Nat
  deletions : Nat
  diff : Option Str
  changedFiles : List ChangedFile
deriving DecidableEq

/-- path.replace backslash-global with slash (git-service.ts:375). -/
def replaceBackslashes (p : Str) : Str :=
  p.map (fun c => if c = '\\' then '/' else c)

/-- JS `a || b` over optional strings, the empty string being falsy. -/
def jsOrOptStr (a b : Option Str) : Option Str :=
  match a with
  | some s => if s = [] then b else some s
  | none => b

/-- The per-file patch lookup (git-service.ts:374-380): current path first
(backslashes normalized), else the old path when truthy; the patch field is
assigned only when the lookup produced a truthy text. -/
def setFilePatch (idx : List (Str × Str)) (cf : ChangedFile) : ChangedFile :=
  let keyNow := replaceBackslashes cf.path
  let fallback :=
    match cf.oldPath with
    | some op => if op ≠ [] then assocGet idx (replaceBackslashes op) else none
    | none => none
  match jsOrOptStr (assocGet idx keyNow) fallback with
  | some p => if p ≠ [] then { cf with patch := some p } else cf
  | none => cf

/-- The optional phases of getCommitDetail (git-service.ts:300-389), with the
two fallible gateway fetches passed in as results and the logger.warn calls
collected (their constant message texts) in the returned list.  A failed
diff fetch is caught: the diff stays unset and a warning is recorded.  The
per-file phase runs when file diffs or the diff were requested; it reuses a
truthy fetched diff, otherwise performs the dedicated patch fetch, whose
failure is likewise caught with a warning, leaving every patch field
untouched; a truthy patch source is split and matched onto the files. -/
def applyOptionalDiffs (includeDiff includeFileDiffs : Bool) (files : List ChangedFile)
    (diffFetch patchFetch : Except Str Str) :
    Option Str × List ChangedFile × List Str :=
  let step1 : Option Str × List Str :=
    if includeDiff then
      match diffFetch with
      | .ok d => (some d, [])
      | .error _ => (none, [lit "Failed to get diff"])
    else (none, [])
  let diff := step1.1
  let warns1 := step1.2
  let needFileDiffs := includeFileDiffs || includeDiff
  if needFileDiffs then
    let src : Except Str Str :=
      match diff with
      | some d => if d ≠ [] then .ok d else patchFetch
      | none => patchFetch
    match src with
    | .error _ => (diff, files, warns1 ++ [lit "Failed to compute per-file patches"])
    | .ok patchSource =>
      if patchSource ≠ [] then
        let idx := buildPatchIndex (splitPatches patchSource)
        (diff, files.map (setFilePatch idx), warns1)
      else (diff, files, warns1)
  else (diff, files, warns1)

/-- Final assembly of getCommitDetail (lines 300-422): `core` carries the
fields computed by the mandatory header, name-status and numstat phases
(lines 150-298); the optional diff phases then fill the diff and per-file
patch fields, and the returned record is built from both. -/
def finishDetail (core : GitCommitDetail) (includeDiff includeFileDiffs : Bool)
    (diffFetch patchFetch : Except Str Str) : GitCommitDetail × List Str :=
  let r := applyOptionalDiffs includeDiff includeFileDiffs core.changedFiles
    diffFetch patchFetch
  ({ core with diff := r.1, changedFiles := r.2.1 }, r.2.2)

/-- The key a name-status line contributes to the per-path map, mirroring
the guards of applyNameStatusLine. -/
def nameStatusKey (line : Str) : Option Str :=
  if trimChars line = [] then none
  else
    let parts := line.splitOn '\t'
    if 2 ≤ parts.length then
      let status := (parts.headD []).take 1
      if status = lit "R" ∨ status = lit "C" then
        some (jsOrStr (parts.getD 2 []) (parts.getD 1 []))
      else some (parts.getD 1 [])
    else none

/-- The key a numstat line contributes to the per-path map, mirroring the
guards of applyNumstatLine. -/
def numstatKey (line : Str) : Option Str :=
  if trimChars line = [] then none
  else
    let parts := line.splitOn '\t'
    if 3 ≤ parts.length then
      some (if 4 ≤ parts.length then parts.getD 3 [] else parts.getD 2 [])
    else none

/-- Keys contributed by the name-status listing, in listing order. -/
def nsKeys (nameStatusOut : Str) : List Str :=
  (nameStatusOut.splitOn '\n').filterMap nameStatusKey

/-- Keys contributed by the numstat listing, in listing order. -/
def nuKeys (numstatOut : Str) : List Str :=
  (numstatOut.splitOn '\n').filterMap numstatKey

/-- First occurrences of the keys not already seen, in order. -/
def dedupNew (seen : List Str) : List Str → List Str
  | [] => []
  | k :: ks => if k ∈ seen then dedupNew seen ks else k :: dedupNew (k :: seen) ks

/-- One complete header+metadata+content group of a blame-porcelain text. -/
structure BlameGroup where
  header : Str
  meta : List Str
  content : Str
deriving DecidableEq

/-- The physical lines of one group, in input order. -/
def groupLines (g : BlameGroup) : List Str := g.header :: g.meta ++ [g.content]

/-- Well-formedness of one group: the header line matches the header regexp,
the metadata lines are neither header nor content lines, the content line
carries the leading tab, and no line contains a newline. -/
def WFBlameGroup (g : BlameGroup) : Prop :=
  (matchHeader g.header).isSome ∧ '\n' ∉ g.header ∧
  (∀ m ∈ g.meta, matchHeader m = none ∧ ¬ (lit "\t").isPrefixOf m ∧ '\n' ∉ m) ∧
  (lit "\t").isPrefixOf g.content ∧ '\n' ∉ g.content

instance (g : BlameGroup) : Decidable (WFBlameGroup g) := by
  unfold WFBlameGroup
  infer_instance

/-- The property tying one well-formed group to the record it produces. -/
def GroupRecord (g : BlameGroup) (r : GitBlameLine) : Prop :=
  matchHeader g.header = some (r.hash, r.line) ∧ r.content = g.content.drop 1

/-! ### Generic helper lemmas -/

theorem takeWhile_run (p : Char → Bool) : ∀ (xs ys : Str), (∀ x ∈ xs, p x = true) →
    (∀ y, ys.head? = some y → p y = false) → (xs ++ ys).takeWhile p = xs
  | [], [], _, _ => rfl
  | [], y :: _, _, hstop => by simp [List.takeWhile_cons, hstop y rfl]
  | x :: xs, ys, hall, hstop => by
    have hx : p x = true := hall x (List.mem_cons_self x xs)
    simp only [List.cons_append, List.takeWhile_cons, hx, if_true]
    rw [takeWhile_run p xs ys (fun a ha => hall a (List.mem_cons_of_mem x ha)) hstop]

theorem dropWhile_run (p : Char → Bool) : ∀ (xs ys : Str), (∀ x ∈ xs, p x = true) →
    (∀ y, ys.head? = some y → p y = false) → (xs ++ ys).dropWhile p = ys
  | [], [], _, _ => rfl
  | [], y :: _, _, hstop => by simp [List.dropWhile_cons, hstop y rfl]
  | x :: xs, ys, hall, hstop => by
    have hx : p x = true := hall x (List.mem_cons_self x xs)
    simp only [List.cons_append, List.dropWhile_cons, hx, if_true]
    exact dropWhile_run p xs ys (fun a ha => hall a (List.mem_cons_of_mem x ha)) hstop

theorem dropWhile_append_all {p : Char → Bool} : ∀ (xs ys : Str), (∀ x ∈ xs, p x = true) →
    (xs ++ ys).dropWhile p = ys.dropWhile p
  | [], _, _ => rfl
  | x :: xs, ys, hall => by
    have hx : p x = true := hall x (List.mem_cons_self x xs)
    simp only [List.cons_append, List.dropWhile_cons, hx, if_true]
    exact dropWhile_append_all xs ys (fun a ha => hall a (List.mem_cons_of_mem x ha))

theorem dropWhile_append_ne {p : Char → Bool} : ∀ (xs ys : Str), xs.dropWhile p ≠ [] →
    (xs ++ ys).dropWhile p = xs.dropWhile p ++ ys
  | [], _, h => absurd rfl h
  | x :: xs, ys, h => by
    by_cases hx : p x
    · simp only [List.cons_append, List.dropWhile_cons, hx, if_true] at h ⊢
      exact dropWhile_append_ne xs ys h
    · simp [List.dropWhile_cons, hx]

theorem joinLines_cons_cons (l l2 : Str) (ls : List Str) :
    joinLines (l :: l2 :: ls) = l ++ '\n' :: joinLines (l2 :: ls) := rfl

theorem joinLines_intercalate : ∀ ls : List Str, joinLines ls = ['\n'].intercalate ls
  | [] => by simp [joinLines, List.intercalate]
  | [l] => by simp [joinLines, List.intercalate]
  | l :: l2 :: ls => by
    rw [joinLines_cons_cons, joinLines_intercalate (l2 :: ls)]
    simp [List.intercalate, List.intersperse]

theorem splitOn_joinLines (ls : List Str) (h : ∀ l ∈ ls, ('\n' : Char) ∉ l)
    (hne : ls ≠ []) : (joinLines ls).splitOn '\n' = ls := by
  rw [joinLines_intercalate]
  exact List.splitOn_intercalate ls '\n' h hne

theorem joinLines_append : ∀ (xs ys : List Str), xs ≠ [] → ys ≠ [] →
    joinLines (xs ++ ys) = joinLines xs ++ '\n' :: joinLines ys
  | [], _, hx, _ => absurd rfl hx
  | [x], y :: ys, _, _ => by simp [joinLines_cons_cons, joinLines]
  | [_], [], _, hy => absurd rfl hy
  | x :: x2 :: xs, ys, _, hy => by
    have ih := joinLines_append (x2 :: xs) ys (by simp) hy
    simp only [List.cons_append, joinLines_cons_cons]
    rw [List.cons_append x2 xs ys] at ih
    rw [ih]
    simp [List.append_assoc]

theorem trimChars_snoc_nl (x : Str) : trimChars (x ++ ['\n']) = trimChars x := by
  unfold trimChars
  by_cases h : x.dropWhile wsChar = []
  · have hall : ∀ c ∈ x, wsChar c = true := by
      intro c hc
      exact (List.dropWhile_eq_nil_iff).1 h c hc
    rw [dropWhile_append_all x ['\n'] hall, h]
    simp [List.dropWhile_cons, wsChar]
  · rw [dropWhile_append_ne x ['\n'] h]
    simp only [List.reverse_append, List.reverse_cons, List.reverse_nil, List.nil_append,
      List.singleton_append, List.dropWhile_cons]
    norm_num [wsChar]

theorem assocGet_set_self {β : Type} : ∀ (m : List (Str × β)) (k : Str) (v : β),
    assocGet (assocSet m k v) k = some v
  | [], k, v => by simp only [assocSet, assocGet, if_pos]
  | (k0, v0) :: m, k, v => by
    by_cases h : k0 = k
    · subst h
      simp only [assocSet, assocGet, if_pos]
    · simp only [assocSet, if_neg h, assocGet]
      exact assocGet_set_self m k v

theorem assocGet_set_other {β : Type} : ∀ (m : List (Str × β)) (k : Str) (v : β)
    (k' : Str), k' ≠ k → assocGet (assocSet m k v) k' = assocGet m k'
  | [], k, v, k', h => by
    simp only [assocSet, assocGet]
    rw [if_neg (fun hh => h hh.symm)]
  | (k0, v0) :: m, k, v, k', h => by
    by_cases h0 : k0 = k
    · subst h0
      simp only [assocSet, if_pos, assocGet]
      rw [if_neg (fun hh => h hh.symm), if_neg (fun hh => h hh.symm)]
    · simp only [assocSet, if_neg h0, assocGet]
      by_cases h1 : k0 = k'
      · rw [if_pos h1, if_pos h1]
      · rw [if_neg h1, if_neg h1]
        exact assocGet_set_other m k v k' h

theorem map_fst_assocSet {β : Type} : ∀ (m : List (Str × β)) (k : Str) (v : β),
    (assocSet m k v).map Prod.fst =
      if k ∈ m.map Prod.fst then m.map Prod.fst else m.map Prod.fst ++ [k]
  | [], k, v => by
    simp only [assocSet, List.map_cons, List.map_nil, List.not_mem_nil]
    rw [if_neg (fun hh => hh)]
    rfl
  | (k0, v0) :: m, k, v => by
    by_cases h : k0 = k
    · subst h
      rw [show assocSet ((k0, v0) :: m) k0 v = (k0, v) :: m from by
        simp only [assocSet, if_pos]]
      rw [if_pos (by
        simp only [List.map_cons, List.mem_cons]
        exact Or.inl trivial)]
      simp only [List.map_cons]
    · simp only [assocSet, if_neg h, List.map_cons]
      rw [map_fst_assocSet m k v]
      by_cases hm : k ∈ m.map Prod.fst
      · rw [if_pos hm, if_pos (by
          simp only [List.map_cons, List.mem_cons]
          exact Or.inr hm)]
      · rw [if_neg hm, if_neg (by
          simp only [List.map_cons, List.mem_cons]
          intro hc
          rcases hc with hc | hc
          · exact h hc.symm
          · exact hm hc)]
        simp only [List.map_cons, List.cons_append]

theorem mem_assocSet {β : Type} (k : Str) (v : β) (m : List (Str × β)) :
    ∀ e : Str × β, e ∈ assocSet m k v → e ∈ m ∨ e = (k, v) := by
  induction m with
  | nil =>
    intro e he
    right
    simpa [assocSet] using he
  | cons hd tl ih =>
    intro e he
    obtain ⟨k0, v0⟩ := hd
    by_cases h : k0 = k
    · simp only [assocSet, if_pos h] at he
      rcases List.mem_cons.1 he with rfl | he
      · right; rw [h]
      · left; exact List.mem_cons_of_mem _ he
    · simp only [assocSet, if_neg h] at he
      rcases List.mem_cons.1 he with rfl | he
      · left; exact List.mem_cons_self _ _
      · rcases ih e he with h1 | h1
        · left; exact List.mem_cons_of_mem _ h1
        · right; exact h1

theorem assocGet_eq_none {β : Type} (k : Str) (m : List (Str × β)) :
    assocGet m k = none ↔ k ∉ m.map Prod.fst := by
  induction m with
  | nil => exact iff_of_true rfl (by rw [List.map_nil]; exact List.not_mem_nil k)
  | cons hd tl ih =>
    obtain ⟨k0, v0⟩ := hd
    by_cases h : k0 = k
    · subst h
      rw [show assocGet ((k0, v0) :: tl) k0 = some v0 from by
        simp only [assocGet, if_pos]]
      apply iff_of_false
      · exact fun hh => by cases hh
      · exact fun hc => hc (by
          simp only [List.map_cons, List.mem_cons]
          exact Or.inl trivial)
    · rw [show assocGet ((k0, v0) :: tl) k = assocGet tl k from by
        simp only [assocGet, if_neg h]]
      rw [ih]
      constructor
      · intro hk hc
        simp only [List.map_cons, List.mem_cons] at hc
        rcases hc with hc | hc
        · exact h hc.symm
        · exact hk hc
      · intro hk hc
        exact hk (by
          simp only [List.map_cons, List.mem_cons]
          exact Or.inr hc)

/-! ### Blame parser: scan lemmas -/

theorem tab_head {c : Str} (ht : (lit "\t").isPrefixOf c) : ∃ t, c = '\t' :: t := by
  cases c with
  | nil => simp [List.isPrefixOf, lit] at ht
  | cons c0 c' =>
    have h0 : c0 = '\t' := by
      have := ht
      simp only [lit, List.isPrefixOf, List.isPrefixOf_nil_left, Bool.and_true] at this
      exact (beq_iff_eq.1 this).symm
    exact ⟨c', by rw [h0]⟩

theorem matchHeader_tab {c : Str} (ht : (lit "\t").isPrefixOf c) : matchHeader c = none := by
  obtain ⟨t, rfl⟩ := tab_head ht
  have h1 : hexDigit '\t' = false := by decide
  simp [matchHeader, List.takeWhile_cons, h1]

theorem parseLoop_header (h : Str) (hh : Str) (n : Nat) (rest : List Str)
    (cur : Option BlameAcc) (hm : matchHeader h = some (hh, n)) :
    parseLoop (h :: rest) cur = parseLoop rest (some (initAcc hh n)) := by
  have hne : h ≠ [] := by
    intro he
    rw [he] at hm
    cases hm
  simp only [parseLoop, if_neg hne, hm]

theorem applyMeta_sig (raw : Str) (p : BlameAcc) :
    (applyMeta raw p).hash = p.hash ∧ (applyMeta raw p).line = p.line ∧
      (applyMeta raw p).content = p.content := by
  unfold applyMeta
  by_cases h0 : (lit "author ").isPrefixOf raw = true
  · rw [if_pos h0]
    exact ⟨rfl, rfl, rfl⟩
  rw [if_neg h0]
  by_cases h1 : (lit "author-mail ").isPrefixOf raw = true
  · rw [if_pos h1]
    exact ⟨rfl, rfl, rfl⟩
  rw [if_neg h1]
  by_cases h2 : (lit "author-time ").isPrefixOf raw = true
  · rw [if_pos h2]
    exact ⟨rfl, rfl, rfl⟩
  rw [if_neg h2]
  by_cases h3 : (lit "author-tz ").isPrefixOf raw = true
  · rw [if_pos h3]
    exact ⟨rfl, rfl, rfl⟩
  rw [if_neg h3]
  by_cases h4 : (lit "committer ").isPrefixOf raw = true
  · rw [if_pos h4]
    exact ⟨rfl, rfl, rfl⟩
  rw [if_neg h4]
  by_cases h5 : (lit "committer-mail ").isPrefixOf raw = true
  · rw [if_pos h5]
    exact ⟨rfl, rfl, rfl⟩
  rw [if_neg h5]
  by_cases h6 : (lit "committer-time ").isPrefixOf raw = true
  · rw [if_pos h6]
    exact ⟨rfl, rfl, rfl⟩
  rw [if_neg h6]
  by_cases h7 : (lit "committer-tz ").isPrefixOf raw = true
  · rw [if_pos h7]
    exact ⟨rfl, rfl, rfl⟩
  rw [if_neg h7]
  by_cases h8 : (lit "summary ").isPrefixOf raw = true
  · rw [if_pos h8]
    exact ⟨rfl, rfl, rfl⟩
  rw [if_neg h8]
  by_cases h9 : (lit "previous ").isPrefixOf raw = true
  · rw [if_pos h9]
    exact ⟨rfl, rfl, rfl⟩
  rw [if_neg h9]
  by_cases h10 : (lit "filename ").isPrefixOf raw = true
  · rw [if_pos h10]
    exact ⟨rfl, rfl, rfl⟩
  rw [if_neg h10]
  exact ⟨rfl, rfl, rfl⟩

theorem parseLoop_content (c : Str) (rest : List Str) (p : BlameAcc)
    (ht : (lit "\t").isPrefixOf c) :
    parseLoop (c :: rest) (some p) = finalizeAcc p (c.drop 1) :: parseLoop rest none := by
  have hne : c ≠ [] := by
    intro he
    rw [he] at ht
    simp [List.isPrefixOf, lit] at ht
  simp only [parseLoop, if_neg hne, matchHeader_tab ht]
  rw [if_pos ht]

theorem parseLoop_meta : ∀ (ms : List Str) (rest : List Str) (p : BlameAcc),
    (∀ m ∈ ms, matchHeader m = none ∧ ¬(lit "\t").isPrefixOf m) →
    ∃ q : BlameAcc, parseLoop (ms ++ rest) (some p) = parseLoop rest (some q) ∧
      q.hash = p.hash ∧ q.line = p.line ∧ q.content = p.content
  | [], _, p, _ => ⟨p, rfl, rfl, rfl, rfl⟩
  | m :: ms, rest, p, hws => by
    obtain ⟨hm, ht⟩ := hws m (List.mem_cons_self m ms)
    have htail : ∀ x ∈ ms, matchHeader x = none ∧ ¬(lit "\t").isPrefixOf x :=
      fun x hx => hws x (List.mem_cons_of_mem m hx)
    rw [List.cons_append]
    by_cases he : m = []
    · subst he
      rw [show parseLoop ([] :: (ms ++ rest)) (some p) = parseLoop (ms ++ rest) (some p)
        from by simp [parseLoop]]
      exact parseLoop_meta ms rest p htail
    · rw [show parseLoop (m :: (ms ++ rest)) (some p) =
          parseLoop (ms ++ rest) (some (applyMeta m p)) from by
        simp only [parseLoop, if_neg he, hm]
        rw [if_neg ht]]
      obtain ⟨q, h1, h2, h3, h4⟩ := parseLoop_meta ms rest (applyMeta m p) htail
      obtain ⟨a1, a2, a3⟩ := applyMeta_sig m p
      exact ⟨q, h1, by rw [h2, a1], by rw [h3, a2], by rw [h4, a3]⟩

theorem parseLoop_group (g : BlameGroup) (rest : List Str) (hg : WFBlameGroup g) :
    ∃ r : GitBlameLine, parseLoop (groupLines g ++ rest) none = r :: parseLoop rest none ∧
      GroupRecord g r := by
  obtain ⟨hh, _, hmeta, hc, _⟩ := hg
  obtain ⟨⟨hsh, n⟩, hm⟩ := Option.isSome_iff_exists.1 hh
  have hshape : groupLines g ++ rest = g.header :: (g.meta ++ (g.content :: rest)) := by
    simp [groupLines]
  rw [hshape, parseLoop_header g.header hsh n _ none hm]
  obtain ⟨q, h1, h2, h3, _⟩ := parseLoop_meta g.meta (g.content :: rest) (initAcc hsh n)
    (fun m hmm => ⟨(hmeta m hmm).1, (hmeta m hmm).2.1⟩)
  rw [h1, parseLoop_content g.content rest q hc]
  refine ⟨finalizeAcc q (g.content.drop 1), rfl, ?_, rfl⟩
  have : (finalizeAcc q (g.content.drop 1)).hash = hsh := by
    rw [show (finalizeAcc q (g.content.drop 1)).hash = q.hash from rfl, h2]
    rfl
  have hl : (finalizeAcc q (g.content.drop 1)).line = n := by
    rw [show (finalizeAcc q (g.content.drop 1)).line = q.line from rfl, h3]
    rfl
  rw [this, hl]
  exact hm

theorem parseLoop_groups_append : ∀ (gs : List BlameGroup) (rest : List Str),
    (∀ g ∈ gs, WFBlameGroup g) →
    ∃ rs : List GitBlameLine,
      parseLoop (gs.flatMap groupLines ++ rest) none = rs ++ parseLoop rest none ∧
      List.Forall₂ GroupRecord gs rs
  | [], rest, _ => ⟨[], by simp, List.Forall₂.nil⟩
  | g :: gs, rest, hwf => by
    obtain ⟨r, hr, hrec⟩ := parseLoop_group g (gs.flatMap groupLines ++ rest)
      (hwf g (List.mem_cons_self g gs))
    obtain ⟨rs, hrs, hall⟩ := parseLoop_groups_append gs rest
      (fun x hx => hwf x (List.mem_cons_of_mem g hx))
    refine ⟨r :: rs, ?_, List.Forall₂.cons hrec hall⟩
    rw [List.flatMap_cons, List.append_assoc, hr, hrs]
    rfl

theorem flatMap_groupLines_ne_nil (g : BlameGroup) (gs : List BlameGroup) :
    (g :: gs).flatMap groupLines ≠ [] := by
  rw [List.flatMap_cons]
  simp [groupLines]

theorem mem_flatMap_groupLines_no_nl (gs : List BlameGroup)
    (hwf : ∀ g ∈ gs, WFBlameGroup g) :
    ∀ l ∈ gs.flatMap groupLines, ('\n' : Char) ∉ l := by
  intro l hl
  rw [List.mem_flatMap] at hl
  obtain ⟨g, hg, hlg⟩ := hl
  obtain ⟨_, hh, hmeta, _, hcl⟩ := hwf g hg
  rcases List.mem_cons.1 hlg with rfl | hlg
  · exact hh
  · rcases List.mem_append.1 hlg with hm | hm
    · exact (hmeta l hm).2.2
    · rw [List.mem_singleton.1 hm]
      exact hcl

/-- Claim C1: a well-formed blame-porcelain text of N complete
header+metadata+content groups parses to exactly N records, in group order,
each content field being exactly the characters after the single leading
tab of its content line. -/
theorem parse_complete_groups (gs : List BlameGroup) (input : Str)
    (hwf : ∀ g ∈ gs, WFBlameGroup g) (hne : gs ≠ [])
    (hsplit : input = joinLines (gs.flatMap groupLines)) :
    List.Forall₂ GroupRecord gs (parseBlameOutput input) ∧
      (parseBlameOutput input).length = gs.length := by
  obtain ⟨g, gs', rfl⟩ := List.exists_cons_of_ne_nil hne
  rw [hsplit, parseBlameOutput,
    splitOn_joinLines _ (mem_flatMap_groupLines_no_nl _ hwf) (flatMap_groupLines_ne_nil g gs')]
  obtain ⟨rs, hrs, hall⟩ := parseLoop_groups_append (g :: gs') [] hwf
  rw [show (g :: gs').flatMap groupLines = (g :: gs').flatMap groupLines ++ [] from
    (List.append_nil _).symm, hrs]
  rw [show parseLoop [] none = [] from rfl, List.append_nil]
  exact ⟨hall, (List.Forall₂.length_eq hall).symm⟩

/-- Claim C1 witness: a two-group porcelain text parses to its two records. -/
theorem parse_complete_groups_witness :
    List.Forall₂ GroupRecord
      [⟨lit "aaaaaaaaaaaaaaaaaaaaaaaaaaaaaaaaaaaaaaaa 1 1 1", [lit "author Alice"], lit "\tfoo"⟩,
       ⟨lit "bbbbbbbbbbbbbbbbbbbbbbbbbbbbbbbbbbbbbbbb 2 2 1", [lit "author Bob"], lit "\tbar\tbaz "⟩]
      (parseBlameOutput (lit "aaaaaaaaaaaaaaaaaaaaaaaaaaaaaaaaaaaaaaaa 1 1 1\nauthor Alice\n\tfoo\nbbbbbbbbbbbbbbbbbbbbbbbbbbbbbbbbbbbbbbbb 2 2 1\nauthor Bob\n\tbar\tbaz ")) ∧
    (parseBlameOutput (lit "aaaaaaaaaaaaaaaaaaaaaaaaaaaaaaaaaaaaaaaa 1 1 1\nauthor Alice\n\tfoo\nbbbbbbbbbbbbbbbbbbbbbbbbbbbbbbbbbbbbbbbb 2 2 1\nauthor Bob\n\tbar\tbaz ")).length = 2 :=
  parse_complete_groups _ _ (by decide) (by decide) (by decide)

/-- Claim C2: a trailing group with header and metadata but no content line
is dropped silently: the parse equals the parse of the complete groups
alone, so N groups with the last one unfinished yield N-1 records; a record
is only ever emitted at a content line (finalizeAcc is the sole emission
point of the scan), so no record lacks a content field. -/
theorem parse_drops_trailing_group (gs : List BlameGroup) (th : Str) (tms : List Str)
    (input : Str) (hwf : ∀ g ∈ gs, WFBlameGroup g)
    (hth : (matchHeader th).isSome ∧ ('\n' : Char) ∉ th)
    (htms : ∀ m ∈ tms, matchHeader m = none ∧ ¬(lit "\t").isPrefixOf m ∧ ('\n' : Char) ∉ m)
    (hsplit : input = joinLines (gs.flatMap groupLines ++ th :: tms)) :
    (parseBlameOutput input).length = gs.length ∧
      List.Forall₂ GroupRecord gs (parseBlameOutput input) := by
  have hnl : ∀ l ∈ gs.flatMap groupLines ++ th :: tms, ('\n' : Char) ∉ l := by
    intro l hl
    rcases List.mem_append.1 hl with hl | hl
    · exact mem_flatMap_groupLines_no_nl gs hwf l hl
    · rcases List.mem_cons.1 hl with rfl | hl
      · exact hth.2
      · exact (htms l hl).2.2
  have hne : gs.flatMap groupLines ++ th :: tms ≠ [] := by
    intro hcon
    exact absurd (List.append_eq_nil.1 hcon).2 (by simp)
  rw [hsplit, parseBlameOutput, splitOn_joinLines _ hnl hne]
  obtain ⟨rs, hrs, hall⟩ := parseLoop_groups_append gs (th :: tms) hwf
  rw [hrs]
  obtain ⟨⟨hsh, n⟩, hm⟩ := Option.isSome_iff_exists.1 hth.1
  rw [parseLoop_header th hsh n tms none hm]
  obtain ⟨q, hq, -, -, -⟩ := parseLoop_meta tms [] (initAcc hsh n)
    (fun m hmm => ⟨(htms m hmm).1, (htms m hmm).2.1⟩)
  rw [show tms = tms ++ [] from (List.append_nil tms).symm, hq]
  rw [show parseLoop [] (some q) = [] from rfl, List.append_nil]
  exact ⟨(List.Forall₂.length_eq hall).symm, hall⟩

/-- Claim C2 witness: one complete group followed by a header+metadata
trailer without content parses to exactly one record. -/
theorem parse_drops_trailing_group_witness :
    (parseBlameOutput (lit "aaaaaaaaaaaaaaaaaaaaaaaaaaaaaaaaaaaaaaaa 1 1 1\nauthor Alice\n\tfoo\nbbbbbbbbbbbbbbbbbbbbbbbbbbbbbbbbbbbbbbbb 2 2 1\nauthor Bob")).length = 1 ∧
      List.Forall₂ GroupRecord
        [⟨lit "aaaaaaaaaaaaaaaaaaaaaaaaaaaaaaaaaaaaaaaa 1 1 1", [lit "author Alice"], lit "\tfoo"⟩]
        (parseBlameOutput (lit "aaaaaaaaaaaaaaaaaaaaaaaaaaaaaaaaaaaaaaaa 1 1 1\nauthor Alice\n\tfoo\nbbbbbbbbbbbbbbbbbbbbbbbbbbbbbbbbbbbbbbbb 2 2 1\nauthor Bob")) :=
  parse_drops_trailing_group
    [⟨lit "aaaaaaaaaaaaaaaaaaaaaaaaaaaaaaaaaaaaaaaa 1 1 1", [lit "author Alice"], lit "\tfoo"⟩]
    (lit "bbbbbbbbbbbbbbbbbbbbbbbbbbbbbbbbbbbbbbbb 2 2 1") [lit "author Bob"] _
    (by decide) (by decide) (by decide) (by decide)

/-! ### Header recognition (C3) -/

theorem ws_cases {c : Char} (h : wsChar c = true) :
    c = ' ' ∨ c = '\t' ∨ c = '\r' ∨ c = '\n' ∨ c = '\x0b' ∨ c = '\x0c' := by
  unfold wsChar at h
  have h2 := h
  simp only [Bool.or_eq_true, decide_eq_true_eq] at h2
  tauto

theorem ws_not_hex {c : Char} (h : wsChar c = true) : hexDigit c = false := by
  rcases ws_cases h with rfl | rfl | rfl | rfl | rfl | rfl <;> decide

theorem ws_not_digit {c : Char} (h : wsChar c = true) : c.isDigit = false := by
  rcases ws_cases h with rfl | rfl | rfl | rfl | rfl | rfl <;> decide

theorem digit_not_ws {c : Char} (h : c.isDigit = true) : wsChar c = false := by
  cases hw : wsChar c
  · rfl
  · rcases ws_cases hw with rfl | rfl | rfl | rfl | rfl | rfl <;> exact absurd h (by decide)

theorem head?_append_cons (c : Char) (xs ys : Str) : ((c :: xs) ++ ys).head? = some c := rfl

theorem takeWhile_cons_ne_nil {p : Char → Bool} {c : Char} (xs : Str)
    (h : p c = true) : (c :: xs).takeWhile p ≠ [] := by
  simp [List.takeWhile_cons, h]

/-- Claim C3 counterexample: a line made of a 40-character hex hash followed
by just two integers is not recognized as a header (the regexp demands a
third integer), and the parser consequently emits nothing for it even when a
content line follows. -/
theorem header_two_ints_counterexample :
    matchHeader (lit "0123456789abcdef0123456789abcdef01234567 1 2") = none ∧
      parseBlameOutput (lit "0123456789abcdef0123456789abcdef01234567 1 2\n\tfoo") = [] := by
  decide

/-- Claim C3 amended: a line consisting of a hex hash of 8 to 40 characters
(case-insensitive), whitespace, an integer, whitespace, an integer, and a
mandatory third whitespace-separated integer -- the trailing integer is
required, not optional -- is recognized as a header, with the hash and the
second integer captured; arbitrary further text may follow the third
integer, and the parse loop starts a fresh accumulator from the captures. -/
theorem header_recognition_amended (h w1 d1 w2 d2 w3 d3 t : Str)
    (hh8 : 8 ≤ h.length) (hh40 : h.length ≤ 40) (hhex : ∀ c ∈ h, hexDigit c = true)
    (hw1 : w1 ≠ []) (hw1c : ∀ c ∈ w1, wsChar c = true)
    (hd1 : d1 ≠ []) (hd1c : ∀ c ∈ d1, c.isDigit = true)
    (hw2 : w2 ≠ []) (hw2c : ∀ c ∈ w2, wsChar c = true)
    (hd2 : d2 ≠ []) (hd2c : ∀ c ∈ d2, c.isDigit = true)
    (hw3 : w3 ≠ []) (hw3c : ∀ c ∈ w3, wsChar c = true)
    (hd3 : d3 ≠ []) (hd3c : ∀ c ∈ d3, c.isDigit = true) :
    matchHeader (h ++ w1 ++ d1 ++ w2 ++ d2 ++ w3 ++ d3 ++ t) = some (h, natOfDigits d2) ∧
      ∀ (rest : List Str) (cur : Option BlameAcc),
        parseLoop ((h ++ w1 ++ d1 ++ w2 ++ d2 ++ w3 ++ d3 ++ t) :: rest) cur =
          parseLoop rest (some (initAcc h (natOfDigits d2))) := by
  obtain ⟨c1, w1', rfl⟩ := List.exists_cons_of_ne_nil hw1
  obtain ⟨e1, d1', rfl⟩ := List.exists_cons_of_ne_nil hd1
  obtain ⟨c2, w2', rfl⟩ := List.exists_cons_of_ne_nil hw2
  obtain ⟨e2, d2', rfl⟩ := List.exists_cons_of_ne_nil hd2
  obtain ⟨c3, w3', rfl⟩ := List.exists_cons_of_ne_nil hw3
  obtain ⟨e3, d3', rfl⟩ := List.exists_cons_of_ne_nil hd3
  have hmain :
      matchHeader (h ++ (c1 :: w1') ++ (e1 :: d1') ++ (c2 :: w2') ++ (e2 :: d2') ++
        (c3 :: w3') ++ (e3 :: d3') ++ t) = some (h, natOfDigits (e2 :: d2')) := by
    have hassoc : h ++ (c1 :: w1') ++ (e1 :: d1') ++ (c2 :: w2') ++ (e2 :: d2') ++
        (c3 :: w3') ++ (e3 :: d3') ++ t =
        h ++ ((c1 :: w1') ++ ((e1 :: d1') ++ ((c2 :: w2') ++ ((e2 :: d2') ++
          ((c3 :: w3') ++ ((e3 :: d3') ++ t)))))) := by
      simp [List.append_assoc]
    rw [hassoc]
    have t1 : (h ++ ((c1 :: w1') ++ ((e1 :: d1') ++ ((c2 :: w2') ++ ((e2 :: d2') ++
        ((c3 :: w3') ++ ((e3 :: d3') ++ t))))))).takeWhile hexDigit = h :=
      takeWhile_run hexDigit h _ hhex (fun y hy => by
        rw [head?_append_cons] at hy
        cases hy
        exact ws_not_hex (hw1c c1 (List.mem_cons_self _ _)))
    have r1 : (h ++ ((c1 :: w1') ++ ((e1 :: d1') ++ ((c2 :: w2') ++ ((e2 :: d2') ++
        ((c3 :: w3') ++ ((e3 :: d3') ++ t))))))).dropWhile hexDigit =
        (c1 :: w1') ++ ((e1 :: d1') ++ ((c2 :: w2') ++ ((e2 :: d2') ++
          ((c3 :: w3') ++ ((e3 :: d3') ++ t))))) :=
      dropWhile_run hexDigit h _ hhex (fun y hy => by
        rw [head?_append_cons] at hy
        cases hy
        exact ws_not_hex (hw1c c1 (List.mem_cons_self _ _)))
    have t2 : ((c1 :: w1') ++ ((e1 :: d1') ++ ((c2 :: w2') ++ ((e2 :: d2') ++
        ((c3 :: w3') ++ ((e3 :: d3') ++ t)))))).takeWhile wsChar = c1 :: w1' :=
      takeWhile_run wsChar _ _ hw1c (fun y hy => by
        rw [head?_append_cons] at hy
        cases hy
        exact digit_not_ws (hd1c e1 (List.mem_cons_self _ _)))
    have r2 : ((c1 :: w1') ++ ((e1 :: d1') ++ ((c2 :: w2') ++ ((e2 :: d2') ++
        ((c3 :: w3') ++ ((e3 :: d3') ++ t)))))).dropWhile wsChar =
        (e1 :: d1') ++ ((c2 :: w2') ++ ((e2 :: d2') ++ ((c3 :: w3') ++ ((e3 :: d3') ++ t)))) :=
      dropWhile_run wsChar _ _ hw1c (fun y hy => by
        rw [head?_append_cons] at hy
        cases hy
        exact digit_not_ws (hd1c e1 (List.mem_cons_self _ _)))
    have t3 : ((e1 :: d1') ++ ((c2 :: w2') ++ ((e2 :: d2') ++ ((c3 :: w3') ++
        ((e3 :: d3') ++ t))))).takeWhile Char.isDigit = e1 :: d1' :=
      takeWhile_run Char.isDigit _ _ hd1c (fun y hy => by
        rw [head?_append_cons] at hy
        cases hy
        exact ws_not_digit (hw2c c2 (List.mem_cons_self _ _)))
    have r3 : ((e1 :: d1') ++ ((c2 :: w2') ++ ((e2 :: d2') ++ ((c3 :: w3') ++
        ((e3 :: d3') ++ t))))).dropWhile Char.isDigit =
        (c2 :: w2') ++ ((e2 :: d2') ++ ((c3 :: w3') ++ ((e3 :: d3') ++ t))) :=
      dropWhile_run Char.isDigit _ _ hd1c (fun y hy => by
        rw [head?_append_cons] at hy
        cases hy
        exact ws_not_digit (hw2c c2 (List.mem_cons_self _ _)))
    have t4 : ((c2 :: w2') ++ ((e2 :: d2') ++ ((c3 :: w3') ++
        ((e3 :: d3') ++ t)))).takeWhile wsChar = c2 :: w2' :=
      takeWhile_run wsChar _ _ hw2c (fun y hy => by
        rw [head?_append_cons] at hy
        cases hy
        exact digit_not_ws (hd2c e2 (List.mem_cons_self _ _)))
    have r4 : ((c2 :: w2') ++ ((e2 :: d2') ++ ((c3 :: w3') ++
        ((e3 :: d3') ++ t)))).dropWhile wsChar =
        (e2 :: d2') ++ ((c3 :: w3') ++ ((e3 :: d3') ++ t)) :=
      dropWhile_run wsChar _ _ hw2c (fun y hy => by
        rw [head?_append_cons] at hy
        cases hy
        exact digit_not_ws (hd2c e2 (List.mem_cons_self _ _)))
    have t5 : ((e2 :: d2') ++ ((c3 :: w3') ++ ((e3 :: d3') ++ t))).takeWhile Char.isDigit =
        e2 :: d2' :=
      takeWhile_run Char.isDigit _ _ hd2c (fun y hy => by
        rw [head?_append_cons] at hy
        cases hy
        exact ws_not_digit (hw3c c3 (List.mem_cons_self _ _)))
    have r5 : ((e2 :: d2') ++ ((c3 :: w3') ++ ((e3 :: d3') ++ t))).dropWhile Char.isDigit =
        (c3 :: w3') ++ ((e3 :: d3') ++ t) :=
      dropWhile_run Char.isDigit _ _ hd2c (fun y hy => by
        rw [head?_append_cons] at hy
        cases hy
        exact ws_not_digit (hw3c c3 (List.mem_cons_self _ _)))
    have t6 : ((c3 :: w3') ++ ((e3 :: d3') ++ t)).takeWhile wsChar = c3 :: w3' :=
      takeWhile_run wsChar _ _ hw3c (fun y hy => by
        rw [head?_append_cons] at hy
        cases hy
        exact digit_not_ws (hd3c e3 (List.mem_cons_self _ _)))
    have r6 : ((c3 :: w3') ++ ((e3 :: d3') ++ t)).dropWhile wsChar = (e3 :: d3') ++ t :=
      dropWhile_run wsChar _ _ hw3c (fun y hy => by
        rw [head?_append_cons] at hy
        cases hy
        exact digit_not_ws (hd3c e3 (List.mem_cons_self _ _)))
    have t7 : ((e3 :: d3') ++ t).takeWhile Char.isDigit ≠ [] := by
      rw [List.cons_append]
      exact takeWhile_cons_ne_nil _ (hd3c e3 (List.mem_cons_self _ _))
    simp only [matchHeader, t1, r1, t2, r2, t3, r3, t4, r4, t5, r5, t6, r6]
    rw [if_pos ⟨hh8, hh40, by simp⟩]
    rw [if_pos ⟨by simp, by simp⟩]
    rw [if_pos ⟨by simp, by simp⟩]
    rw [if_pos t7]
  refine ⟨hmain, fun rest cur => ?_⟩
  exact parseLoop_header _ _ _ rest cur hmain

/-- Claim C3 amended witness: an uppercase 8-character hash with three
integers and trailing text is recognized, capturing the second integer. -/
theorem header_recognition_amended_witness :
    matchHeader (lit "DEADBEEF 1 23 4 extra") = some (lit "DEADBEEF", 23) ∧
      ∀ (rest : List Str) (cur : Option BlameAcc),
        parseLoop (lit "DEADBEEF 1 23 4 extra" :: rest) cur =
          parseLoop rest (some (initAcc (lit "DEADBEEF") 23)) := by
  have e : lit "DEADBEEF 1 23 4 extra" =
      lit "DEADBEEF" ++ lit " " ++ lit "1" ++ lit " " ++ lit "23" ++ lit " " ++
        lit "4" ++ lit " extra" := by decide
  rw [show (23 : Nat) = natOfDigits (lit "23") from by decide, e]
  exact header_recognition_amended (lit "DEADBEEF") (lit " ") (lit "1") (lit " ")
    (lit "23") (lit " ") (lit "4") (lit " extra")
    (by decide) (by decide) (by decide) (by decide) (by decide) (by decide) (by decide)
    (by decide) (by decide) (by decide) (by decide) (by decide) (by decide) (by decide)
    (by decide)

/-! ### Line-range filter (C4) -/

/-- Claim C4 counterexample: on a parsed list holding one record with line
number 2, a request with from = 1 and a missing upper bound returns nothing,
because the missing bound defaults to the record count (1), not to the
maximum line number present (2) as the claim states. -/
theorem filter_default_counterexample :
    filterBlame [⟨2, [], none, none, none, none, none, none, none, none, none,
      none, none, none, []⟩] (some 1) none = [] ∧
    specMaxLine [⟨2, [], none, none, none, none, none, none, none, none, none,
      none, none, none, []⟩] = 2 ∧
    List.filter (fun l => decide (1 ≤ l.line ∧ l.line ≤ 2))
      [(⟨2, [], none, none, none, none, none, none, none, none, none,
        none, none, none, []⟩ : GitBlameLine)] =
      [⟨2, [], none, none, none, none, none, none, none, none, none,
        none, none, none, []⟩] := by
  decide

/-- Claim C4 amended: the filter keeps exactly the records with
from ≤ line ≤ to in original order; a missing from defaults to 1 and a
missing to defaults to the number of parsed records (the list length), not
the maximum line number present; omitting both bounds returns the input
unchanged, and a range wholly outside the data yields an empty list. -/
theorem filter_blame_amended (ls : List GitBlameLine) (lineFrom lineTo : Option Nat) :
    (filterBlame ls none none = ls) ∧
    (lineFrom.isSome ∨ lineTo.isSome →
      (filterBlame ls lineFrom lineTo).Sublist ls ∧
      (∀ r, r ∈ filterBlame ls lineFrom lineTo ↔
        r ∈ ls ∧ jsOrNat lineFrom 1 ≤ r.line ∧ r.line ≤ jsOrNat lineTo ls.length) ∧
      ((∀ l ∈ ls, l.line < jsOrNat lineFrom 1 ∨ jsOrNat lineTo ls.length < l.line) →
        filterBlame ls lineFrom lineTo = [])) := by
  constructor
  · rfl
  · intro hsome
    have hb : (lineFrom.isSome || lineTo.isSome) = true := by
      rcases hsome with h | h <;> simp [h]
    have hform : filterBlame ls lineFrom lineTo =
        ls.filter (fun l => decide (jsOrNat lineFrom 1 ≤ l.line ∧
          l.line ≤ jsOrNat lineTo ls.length)) := by
      unfold filterBlame
      rw [if_pos hb]
    rw [hform]
    refine ⟨List.filter_sublist _, ?_, ?_⟩
    · intro r
      rw [List.mem_filter]
      simp only [decide_eq_true_eq]
    · intro hout
      rw [List.filter_eq_nil_iff]
      intro a ha
      simp only [decide_eq_true_eq]
      intro hc
      rcases hout a ha with hlt | hlt
      · omega
      · omega

/-- Claim C4 amended witness: one record with line 1; filtering with
from = 1 keeps it, a 5..9 request returns the empty list, no bounds return
the input unchanged. -/
theorem filter_blame_amended_witness :
    (filterBlame [⟨1, [], none, none, none, none, none, none, none, none, none,
      none, none, none, []⟩] none none =
      [⟨1, [], none, none, none, none, none, none, none, none, none,
        none, none, none, []⟩]) ∧
    (∀ r, r ∈ filterBlame [⟨1, [], none, none, none, none, none, none, none, none,
        none, none, none, none, []⟩] (some 1) none ↔
      r ∈ [⟨1, [], none, none, none, none, none, none, none, none, none,
        none, none, none, []⟩] ∧ 1 ≤ r.line ∧ r.line ≤ 1) ∧
    (filterBlame [⟨1, [], none, none, none, none, none, none, none, none, none,
      none, none, none, []⟩] (some 5) (some 9) = []) := by
  refine ⟨(filter_blame_amended _ (some 1) none).1, ?_, ?_⟩
  · exact ((filter_blame_amended _ (some 1) none).2 (Or.inl rfl)).2.1
  · exact ((filter_blame_amended _ (some 5) (some 9)).2 (Or.inl rfl)).2.2 (by decide)

/-! ### Patch splitter (C5) -/

theorem splitScan_header (l a b : Str) (ls : List Str) (cur : Option (Str × Str))
    (buf : List Str) (hm : matchDiffHeader l = some (a, b)) :
    splitScan (l :: ls) cur buf = flushSection cur buf ++ splitScan ls (some (a, b)) [l] := by
  simp only [splitScan, hm]

theorem splitScan_body : ∀ (body ls : List Str) (ab : Str × Str) (buf : List Str),
    (∀ l ∈ body, matchDiffHeader l = none) →
    splitScan (body ++ ls) (some ab) buf = splitScan ls (some ab) (buf ++ body)
  | [], ls, ab, buf, _ => by simp
  | l :: body, ls, ab, buf, hb => by
    rw [List.cons_append]
    rw [show splitScan (l :: (body ++ ls)) (some ab) buf =
        splitScan (body ++ ls) (some ab) (buf ++ [l]) from by
      simp only [splitScan, hb l (List.mem_cons_self l body)]]
    rw [splitScan_body body ls ab (buf ++ [l])
      (fun x hx => hb x (List.mem_cons_of_mem l hx))]
    rw [← List.append_cons]

theorem splitScan_nil_some (a b : Str) (buf : List Str) :
    splitScan [] (some (a, b)) buf = [⟨a, b, joinLines buf⟩] := rfl

/-- One whole section consumed by the scanner. -/
theorem splitScan_section (hl a b : Str) (body rest : List Str)
    (cur : Option (Str × Str)) (buf : List Str)
    (hm : matchDiffHeader hl = some (a, b))
    (hb : ∀ l ∈ body, matchDiffHeader l = none) :
    splitScan ((hl :: body) ++ rest) cur buf =
      flushSection cur buf ++ splitScan rest (some (a, b)) (hl :: body) := by
  rw [List.cons_append, splitScan_header hl a b _ cur buf hm,
    splitScan_body body rest (a, b) [hl] hb]
  rfl

theorem splitScan_last_section (hl a b : Str) (body : List Str)
    (cur : Option (Str × Str)) (buf : List Str)
    (hm : matchDiffHeader hl = some (a, b))
    (hb : ∀ l ∈ body, matchDiffHeader l = none) :
    splitScan (hl :: body) cur buf =
      flushSection cur buf ++ [⟨a, b, joinLines (hl :: body)⟩] := by
  have h := splitScan_section hl a b body [] cur buf hm hb
  rw [List.append_nil] at h
  rw [h]
  rfl

theorem buildPatchIndex_snoc (fps : List FilePatch) (fp : FilePatch) :
    buildPatchIndex (fps ++ [fp]) = patchIndexStep (buildPatchIndex fps) fp := by
  unfold buildPatchIndex
  rw [List.foldl_append]
  rfl

/-- Looking up one of the keys a section just claimed yields its text. -/
theorem patchIndexStep_get_self (m : List (Str × Str)) (fp : FilePatch) (k : Str)
    (hk : k ≠ []) (hor : k = stripSide fp.aPath ∨ k = stripSide fp.bPath) :
    assocGet (patchIndexStep m fp) k = some fp.patch := by
  simp only [patchIndexStep]
  rcases hor with hk1 | hk1
  · rw [← hk1]
    rw [if_pos hk]
    by_cases hbk : stripSide fp.bPath ≠ []
    · rw [if_pos hbk]
      by_cases heq : stripSide fp.bPath = k
      · rw [← heq]
        exact assocGet_set_self _ _ _
      · rw [assocGet_set_other _ _ _ _ (fun hh => heq hh.symm)]
        exact assocGet_set_self _ _ _
    · rw [if_neg hbk]
      exact assocGet_set_self _ _ _
  · rw [← hk1, if_pos hk]
    exact assocGet_set_self _ _ _

/-- Keys a section does not claim are untouched by its index step. -/
theorem patchIndexStep_get_other (m : List (Str × Str)) (fp : FilePatch) (k : Str)
    (ha : k ≠ stripSide fp.aPath) (hb : k ≠ stripSide fp.bPath) :
    assocGet (patchIndexStep m fp) k = assocGet m k := by
  simp only [patchIndexStep]
  by_cases hbk : stripSide fp.bPath ≠ []
  · rw [if_pos hbk, assocGet_set_other _ _ _ _ hb]
    by_cases hak : stripSide fp.aPath ≠ []
    · rw [if_pos hak, assocGet_set_other _ _ _ _ ha]
    · rw [if_neg hak]
  · rw [if_neg hbk]
    by_cases hak : stripSide fp.aPath ≠ []
    · rw [if_pos hak, assocGet_set_other _ _ _ _ ha]
    · rw [if_neg hak]

/-- Claim C5: splitting a three-section diff returns the three sections in
order; joining the three section texts with newlines reconstructs the input
exactly; looking up either stripped side path of a section returns that
identical section text; and, in general, when two sections claim the same
stripped key the later-declared section wins the index entry. -/
theorem patch_splitter_properties
    (hA aA bA hB aB bB hC aC bC : Str) (bodyA bodyB bodyC : List Str) (input : Str)
    (hmA : matchDiffHeader hA = some (aA, bA))
    (hmB : matchDiffHeader hB = some (aB, bB))
    (hmC : matchDiffHeader hC = some (aC, bC))
    (hbA : ∀ l ∈ bodyA, matchDiffHeader l = none)
    (hbB : ∀ l ∈ bodyB, matchDiffHeader l = none)
    (hbC : ∀ l ∈ bodyC, matchDiffHeader l = none)
    (hnl : ∀ l ∈ (hA :: bodyA) ++ ((hB :: bodyB) ++ (hC :: bodyC)), ('\n' : Char) ∉ l)
    (hinput : input = joinLines ((hA :: bodyA) ++ ((hB :: bodyB) ++ (hC :: bodyC))))
    (hkA1 : stripSide aA ≠ []) (hkA2 : stripSide bA ≠ [])
    (hkB1 : stripSide aB ≠ []) (hkB2 : stripSide bB ≠ [])
    (hkC1 : stripSide aC ≠ []) (hkC2 : stripSide bC ≠ [])
    (hAB : ∀ x ∈ [stripSide aA, stripSide bA],
      x ≠ stripSide aB ∧ x ≠ stripSide bB ∧ x ≠ stripSide aC ∧ x ≠ stripSide bC)
    (hBC : ∀ x ∈ [stripSide aB, stripSide bB], x ≠ stripSide aC ∧ x ≠ stripSide bC) :
    splitPatches input =
      [⟨aA, bA, joinLines (hA :: bodyA)⟩, ⟨aB, bB, joinLines (hB :: bodyB)⟩,
       ⟨aC, bC, joinLines (hC :: bodyC)⟩] ∧
    joinLines [joinLines (hA :: bodyA), joinLines (hB :: bodyB), joinLines (hC :: bodyC)] =
      input ∧
    (assocGet (buildPatchIndex (splitPatches input)) (stripSide aA) =
        some (joinLines (hA :: bodyA)) ∧
      assocGet (buildPatchIndex (splitPatches input)) (stripSide bA) =
        some (joinLines (hA :: bodyA)) ∧
      assocGet (buildPatchIndex (splitPatches input)) (stripSide aB) =
        some (joinLines (hB :: bodyB)) ∧
      assocGet (buildPatchIndex (splitPatches input)) (stripSide bB) =
        some (joinLines (hB :: bodyB)) ∧
      assocGet (buildPatchIndex (splitPatches input)) (stripSide aC) =
        some (joinLines (hC :: bodyC)) ∧
      assocGet (buildPatchIndex (splitPatches input)) (stripSide bC) =
        some (joinLines (hC :: bodyC))) ∧
    (∀ (fps : List FilePatch) (fp : FilePatch) (k : Str), k ≠ [] →
      (k = stripSide fp.aPath ∨ k = stripSide fp.bPath) →
      assocGet (buildPatchIndex (fps ++ [fp])) k = some fp.patch) := by
  have hlines : ((hA :: bodyA) ++ ((hB :: bodyB) ++ (hC :: bodyC))) ≠ [] := by simp
  have hsplitLines : input.splitOn '\n' =
      (hA :: bodyA) ++ ((hB :: bodyB) ++ (hC :: bodyC)) := by
    rw [hinput]
    exact splitOn_joinLines _ hnl hlines
  have hscan : splitPatches input =
      [⟨aA, bA, joinLines (hA :: bodyA)⟩, ⟨aB, bB, joinLines (hB :: bodyB)⟩,
       ⟨aC, bC, joinLines (hC :: bodyC)⟩] := by
    rw [splitPatches, hsplitLines]
    rw [splitScan_section hA aA bA bodyA _ none [] hmA hbA]
    rw [splitScan_section hB aB bB bodyB _ (some (aA, bA)) (hA :: bodyA) hmB hbB]
    rw [splitScan_last_section hC aC bC bodyC (some (aB, bB)) (hB :: bodyB) hmC hbC]
    rfl
  have hjoin : joinLines [joinLines (hA :: bodyA), joinLines (hB :: bodyB),
      joinLines (hC :: bodyC)] = input := by
    rw [hinput]
    rw [joinLines_append (hA :: bodyA) ((hB :: bodyB) ++ (hC :: bodyC)) (by simp) (by simp)]
    rw [joinLines_append (hB :: bodyB) (hC :: bodyC) (by simp) (by simp)]
    rfl
  have hlater : ∀ (fps : List FilePatch) (fp : FilePatch) (k : Str), k ≠ [] →
      (k = stripSide fp.aPath ∨ k = stripSide fp.bPath) →
      assocGet (buildPatchIndex (fps ++ [fp])) k = some fp.patch := by
    intro fps fp k hk hor
    rw [buildPatchIndex_snoc]
    exact patchIndexStep_get_self _ fp k hk hor
  refine ⟨hscan, hjoin, ?_, hlater⟩
  rw [hscan]
  have hidx : buildPatchIndex
      [(⟨aA, bA, joinLines (hA :: bodyA)⟩ : FilePatch),
       ⟨aB, bB, joinLines (hB :: bodyB)⟩, ⟨aC, bC, joinLines (hC :: bodyC)⟩] =
      patchIndexStep (patchIndexStep (patchIndexStep [] ⟨aA, bA, joinLines (hA :: bodyA)⟩)
        ⟨aB, bB, joinLines (hB :: bodyB)⟩) ⟨aC, bC, joinLines (hC :: bodyC)⟩ := rfl
  rw [hidx]
  obtain ⟨nA1B1, nA1B2, nA1C1, nA1C2⟩ := hAB (stripSide aA) (by simp)
  obtain ⟨nA2B1, nA2B2, nA2C1, nA2C2⟩ := hAB (stripSide bA) (by simp)
  obtain ⟨nB1C1, nB1C2⟩ := hBC (stripSide aB) (by simp)
  obtain ⟨nB2C1, nB2C2⟩ := hBC (stripSide bB) (by simp)
  refine ⟨?_, ?_, ?_, ?_, ?_, ?_⟩
  · rw [patchIndexStep_get_other _ _ _ nA1C1 nA1C2,
      patchIndexStep_get_other _ _ _ nA1B1 nA1B2]
    exact patchIndexStep_get_self _ _ _ hkA1 (Or.inl rfl)
  · rw [patchIndexStep_get_other _ _ _ nA2C1 nA2C2,
      patchIndexStep_get_other _ _ _ nA2B1 nA2B2]
    exact patchIndexStep_get_self _ _ _ hkA2 (Or.inr rfl)
  · rw [patchIndexStep_get_other _ _ _ nB1C1 nB1C2]
    exact patchIndexStep_get_self _ _ _ hkB1 (Or.inl rfl)
  · rw [patchIndexStep_get_other _ _ _ nB2C1 nB2C2]
    exact patchIndexStep_get_self _ _ _ hkB2 (Or.inr rfl)
  · exact patchIndexStep_get_self _ _ _ hkC1 (Or.inl rfl)
  · exact patchIndexStep_get_self _ _ _ hkC2 (Or.inr rfl)

/-- Claim C5 witness: a concrete three-section diff for paths A, B, C. -/
theorem patch_splitter_properties_witness :
    splitPatches (lit "diff --git a/A b/A\n-x\ndiff --git a/B b/B\n+y\ndiff --git a/C b/C\n+z") =
      [⟨lit "A", lit "A", lit "diff --git a/A b/A\n-x"⟩,
       ⟨lit "B", lit "B", lit "diff --git a/B b/B\n+y"⟩,
       ⟨lit "C", lit "C", lit "diff --git a/C b/C\n+z"⟩] ∧
    assocGet (buildPatchIndex (splitPatches
        (lit "diff --git a/A b/A\n-x\ndiff --git a/B b/B\n+y\ndiff --git a/C b/C\n+z")))
      (lit "A") = some (lit "diff --git a/A b/A\n-x") := by
  have h := patch_splitter_properties
    (lit "diff --git a/A b/A") (lit "A") (lit "A")
    (lit "diff --git a/B b/B") (lit "B") (lit "B")
    (lit "diff --git a/C b/C") (lit "C") (lit "C")
    [lit "-x"] [lit "+y"] [lit "+z"]
    (lit "diff --git a/A b/A\n-x\ndiff --git a/B b/B\n+y\ndiff --git a/C b/C\n+z")
    (by decide) (by decide) (by decide) (by decide) (by decide) (by decide)
    (by decide) (by decide) (by decide) (by decide) (by decide) (by decide)
    (by decide) (by decide) (by decide) (by decide)
  refine ⟨?_, ?_⟩
  · rw [h.1]
    decide
  · have h2 := h.2.2.1.1
    rw [show stripSide (lit "A") = lit "A" from by decide] at h2
    rw [h2]
    decide

/-! ### Name-status and numstat merge (C6, C7) -/

theorem numstatMergeValue_fields (e : ChangedFile) (i d : Option Nat) (o : Option Str) :
    (numstatMergeValue e i d o).status = e.status ∧
    (numstatMergeValue e i d o).path = e.path ∧
    (numstatMergeValue e i d o).insertions = i ∧
    (numstatMergeValue e i d o).deletions = d ∧
    (∀ s, e.oldPath = some s → s ≠ [] → (numstatMergeValue e i d o).oldPath = some s) := by
  cases o with
  | none => exact ⟨rfl, rfl, rfl, rfl, fun s hs _ => hs⟩
  | some op =>
    by_cases hc : op ≠ [] ∧ jsFalsyStr e.oldPath = true
    · have he : numstatMergeValue e i d (some op) =
          { status := e.status, path := e.path, oldPath := some op,
            insertions := i, deletions := d, patch := e.patch } := by
        simp only [numstatMergeValue]
        exact if_pos hc
      rw [he]
      refine ⟨rfl, rfl, rfl, rfl, fun s hs hsne => ?_⟩
      exfalso
      have h2 := hc.2
      rw [hs] at h2
      simp only [jsFalsyStr, decide_eq_true_eq] at h2
      exact hsne h2
    · have he : numstatMergeValue e i d (some op) =
          { status := e.status, path := e.path, oldPath := e.oldPath,
            insertions := i, deletions := d, patch := e.patch } := by
        simp only [numstatMergeValue]
        exact if_neg hc
      rw [he]
      exact ⟨rfl, rfl, rfl, rfl, fun s hs _ => hs⟩

/-- Claim C6: a name-status rename record merged with the matching numstat
rename record yields a single ChangedFile keyed by the current path with the
old path, the rename status and both counts; and, in general, merging a
numstat line into the map fills numeric fields without ever touching the
status of an existing entry, preserves its path, and never overwrites an
already-set (truthy) old path. -/
theorem numstat_merge_properties (m : List (Str × ChangedFile)) (line : Str) (k : Str)
    (old : ChangedFile) (hold : assocGet m k = some old) :
    (changedFilesOf (lit "R100\told.txt\tnew.txt") (lit "3\t1\told.txt\tnew.txt") =
      [⟨lit "R", lit "new.txt", some (lit "old.txt"), some 3, some 1, none⟩]) ∧
    ∃ nw : ChangedFile, assocGet (applyNumstatLine m line) k = some nw ∧
      nw.status = old.status ∧ nw.path = old.path ∧
      (∀ s, old.oldPath = some s → s ≠ [] → nw.oldPath = some s) := by
  refine ⟨by decide, ?_⟩
  by_cases h1 : trimChars line = []
  · refine ⟨old, ?_, rfl, rfl, fun s hs _ => hs⟩
    unfold applyNumstatLine
    rw [if_pos h1]
    exact hold
  · simp only [applyNumstatLine]
    rw [if_neg h1]
    by_cases h2 : 3 ≤ (line.splitOn '\t').length
    · rw [if_pos h2]
      by_cases h3 : k = (if 4 ≤ (line.splitOn '\t').length
          then (line.splitOn '\t').getD 3 [] else (line.splitOn '\t').getD 2 [])
      · rw [← h3, hold]
        simp only [Option.getD_some]
        obtain ⟨f1, f2, _, _, f5⟩ := numstatMergeValue_fields old
          (if (line.splitOn '\t').headD [] = lit "-" then none
            else jsParseInt ((line.splitOn '\t').headD []))
          (if (line.splitOn '\t').getD 1 [] = lit "-" then none
            else jsParseInt ((line.splitOn '\t').getD 1 []))
          (if 4 ≤ (line.splitOn '\t').length then some ((line.splitOn '\t').getD 2 [])
            else none)
        exact ⟨_, assocGet_set_self m k _, f1, f2, f5⟩
      · rw [assocGet_set_other _ _ _ _ h3]
        exact ⟨old, hold, rfl, rfl, fun s hs _ => hs⟩
    · rw [if_neg h2]
      exact ⟨old, hold, rfl, rfl, fun s hs _ => hs⟩

/-- Claim C6 witness: the concrete rename merge together with the general
preservation applied to a one-entry map and the rename numstat line. -/
theorem numstat_merge_properties_witness :
    (changedFilesOf (lit "R100\told.txt\tnew.txt") (lit "3\t1\told.txt\tnew.txt") =
      [⟨lit "R", lit "new.txt", some (lit "old.txt"), some 3, some 1, none⟩]) ∧
    ∃ nw : ChangedFile,
      assocGet (applyNumstatLine
        [(lit "new.txt", ⟨lit "R", lit "new.txt", some (lit "old.txt"), none, none, none⟩)]
        (lit "3\t1\told.txt\tnew.txt")) (lit "new.txt") = some nw ∧
      nw.status = lit "R" ∧ nw.path = lit "new.txt" ∧
      (∀ s, some (lit "old.txt") = some s → s ≠ [] → nw.oldPath = some s) :=
  numstat_merge_properties
    [(lit "new.txt", ⟨lit "R", lit "new.txt", some (lit "old.txt"), none, none, none⟩)]
    (lit "3\t1\told.txt\tnew.txt") (lit "new.txt")
    ⟨lit "R", lit "new.txt", some (lit "old.txt"), none, none, none⟩ (by decide)

theorem foldl_count_sum (g : ChangedFile → Option Nat) :
    ∀ (fs : List ChangedFile) (a : Nat),
      fs.foldl (fun a f => match g f with | some n => a + n | none => a) a =
        a + (fs.filterMap g).sum
  | [], a => by simp
  | f :: fs, a => by
    cases hg : g f with
    | none =>
      simp only [List.foldl_cons, hg, List.filterMap_cons]
      exact foldl_count_sum g fs a
    | some n =>
      simp only [List.foldl_cons, hg, List.filterMap_cons, List.sum_cons]
      rw [foldl_count_sum g fs (a + n)]
      omega

/-- Claim C7: filesChanged is the entry count of the merged map, and the
insertion and deletion totals sum exactly the present numeric counts; an
entry with the binary sentinel has absent counts, still counts toward
filesChanged, and contributes nothing to either sum, as on the concrete
revision with files A (3 insertions, 1 deletion) and B (binary). -/
theorem aggregation_properties (fs : List ChangedFile) (f : ChangedFile) :
    filesChangedOf fs = fs.length ∧
    insertionsOf fs = (fs.filterMap (fun f => f.insertions)).sum ∧
    deletionsOf fs = (fs.filterMap (fun f => f.deletions)).sum ∧
    (f.insertions = none → insertionsOf (f :: fs) = insertionsOf fs) ∧
    (f.deletions = none → deletionsOf (f :: fs) = deletionsOf fs) ∧
    filesChangedOf (f :: fs) = filesChangedOf fs + 1 ∧
    (changedFilesOf (lit "M\tA\nM\tB") (lit "3\t1\tA\n-\t-\tB") =
      [⟨lit "M", lit "A", none, some 3, some 1, none⟩,
       ⟨lit "M", lit "B", none, none, none, none⟩]) ∧
    filesChangedOf (changedFilesOf (lit "M\tA\nM\tB") (lit "3\t1\tA\n-\t-\tB")) = 2 ∧
    insertionsOf (changedFilesOf (lit "M\tA\nM\tB") (lit "3\t1\tA\n-\t-\tB")) = 3 ∧
    deletionsOf (changedFilesOf (lit "M\tA\nM\tB") (lit "3\t1\tA\n-\t-\tB")) = 1 := by
  refine ⟨rfl, ?_, ?_, ?_, ?_, rfl, by decide, by decide, by decide, by decide⟩
  · have h := foldl_count_sum (fun f => f.insertions) fs 0
    simpa [insertionsOf] using h
  · have h := foldl_count_sum (fun f => f.deletions) fs 0
    simpa [deletionsOf] using h
  · intro hnone
    simp only [insertionsOf, List.foldl_cons, hnone]
  · intro hnone
    simp only [deletionsOf, List.foldl_cons, hnone]

/-- Claim C7 witness: the general parts applied at the parsed concrete
revision, a binary entry in front contributing nothing. -/
theorem aggregation_properties_witness :
    insertionsOf (⟨lit "M", lit "B", none, none, none, none⟩ ::
      changedFilesOf (lit "M\tA\nM\tB") (lit "3\t1\tA\n-\t-\tB")) =
      insertionsOf (changedFilesOf (lit "M\tA\nM\tB") (lit "3\t1\tA\n-\t-\tB")) ∧
    filesChangedOf (⟨lit "M", lit "B", none, none, none, none⟩ ::
      changedFilesOf (lit "M\tA\nM\tB") (lit "3\t1\tA\n-\t-\tB")) = 3 :=
  ⟨((aggregation_properties (changedFilesOf (lit "M\tA\nM\tB") (lit "3\t1\tA\n-\t-\tB"))
      ⟨lit "M", lit "B", none, none, none, none⟩).2.2.2.1 rfl),
   by decide⟩

/-! ### Header summary and message (C8) -/

theorem msgStep_eq (st : Str × Str) (line : Str) :
    msgStep st line =
      if (lit "    ").isPrefixOf line then
        (if line.drop 4 ≠ [] then
          (if st.1 = [] then trimChars (line.drop 4) else st.1,
            st.2 ++ line.drop 4 ++ ['\n'])
        else (st.1, st.2 ++ ['\n']))
      else st := rfl

theorem bodyOfLines_cons_body (l : Str) (lines : List Str)
    (hp : (lit "    ").isPrefixOf l = true) :
    bodyOfLines (l :: lines) = l.drop 4 :: bodyOfLines lines := by
  simp [bodyOfLines, hp]

theorem bodyOfLines_cons_other (l : Str) (lines : List Str)
    (hp : ¬(lit "    ").isPrefixOf l = true) :
    bodyOfLines (l :: lines) = bodyOfLines lines := by
  simp [bodyOfLines, hp]

theorem msgFold_message : ∀ (lines : List Str) (s0 m0 : Str),
    (lines.foldl msgStep (s0, m0)).2 =
      m0 ++ (bodyOfLines lines).flatMap (fun l => l ++ ['\n'])
  | [], s0, m0 => by simp [bodyOfLines]
  | l :: lines, s0, m0 => by
    rw [List.foldl_cons, msgStep_eq]
    by_cases hp : (lit "    ").isPrefixOf l = true
    · rw [if_pos hp, bodyOfLines_cons_body l lines hp]
      by_cases hm : l.drop 4 ≠ []
      · rw [if_pos hm]
        rw [msgFold_message lines _ _]
        simp [List.append_assoc]
      · rw [if_neg hm]
        rw [msgFold_message lines s0 _]
        push_neg at hm
        simp [hm, List.append_assoc]
    · rw [if_neg hp, bodyOfLines_cons_other l lines hp]
      exact msgFold_message lines s0 m0

theorem msgFold_summary : ∀ (lines : List Str) (s0 m0 : Str),
    (lines.foldl msgStep (s0, m0)).1 =
      if s0 = [] then firstBodySummary (bodyOfLines lines) else s0
  | [], s0, m0 => by
    by_cases h : s0 = []
    · simp [h, firstBodySummary, bodyOfLines, trimChars]
    · simp [h]
  | l :: lines, s0, m0 => by
    rw [List.foldl_cons, msgStep_eq]
    by_cases hp : (lit "    ").isPrefixOf l = true
    · rw [if_pos hp, bodyOfLines_cons_body l lines hp]
      by_cases hm : l.drop 4 ≠ []
      · rw [if_pos hm]
        rw [msgFold_summary lines _ _]
        by_cases hs : s0 = []
        · rw [if_pos hs, if_pos hs]
          by_cases ht : trimChars (l.drop 4) = []
          · rw [if_pos ht]
            have hf : (l.drop 4 :: bodyOfLines lines).filter
                (fun l => decide (trimChars l ≠ [])) =
                (bodyOfLines lines).filter (fun l => decide (trimChars l ≠ [])) := by
              simp [List.filter_cons, ht]
            unfold firstBodySummary
            rw [hf]
          · rw [if_neg ht]
            have hf : (l.drop 4 :: bodyOfLines lines).filter
                (fun l => decide (trimChars l ≠ [])) =
                l.drop 4 :: (bodyOfLines lines).filter (fun l => decide (trimChars l ≠ [])) := by
              simp [List.filter_cons, ht]
            unfold firstBodySummary
            rw [hf]
            rfl
        · rw [if_neg hs, if_neg hs, if_neg hs]
      · rw [if_neg hm]
        rw [msgFold_summary lines s0 _]
        push_neg at hm
        by_cases hs : s0 = []
        · rw [if_pos hs, if_pos hs]
          have hf : (l.drop 4 :: bodyOfLines lines).filter
              (fun l => decide (trimChars l ≠ [])) =
              (bodyOfLines lines).filter (fun l => decide (trimChars l ≠ [])) := by
            simp [List.filter_cons, hm, trimChars]
          unfold firstBodySummary
          rw [hf]
        · rw [if_neg hs, if_neg hs]
    · rw [if_neg hp, bodyOfLines_cons_other l lines hp]
      exact msgFold_summary lines s0 m0

theorem flatMap_nl_snoc : ∀ (body : List Str), body ≠ [] →
    body.flatMap (fun l => l ++ ['\n']) = joinLines body ++ ['\n']
  | [], h => absurd rfl h
  | [l], _ => by simp [joinLines]
  | l :: l2 :: body, _ => by
    rw [List.flatMap_cons, flatMap_nl_snoc (l2 :: body) (by simp), joinLines_cons_cons]
    simp [List.append_assoc]

/-- Claim C8 counterexample: with a whitespace-only body line before the
first non-blank one, the computed summary is the trim of the first
non-blank line, not the trim (empty) of the first non-empty body line as
the claim states: the empty trim of the whitespace-only line leaves the
summary falsy and it is overwritten by the next line. -/
theorem summary_whitespace_counterexample :
    (parseSummaryMessage (lit "      \n    hi")).1 = lit "hi" ∧
      specSummaryOf (lit "      \n    hi") = [] ∧ lit "hi" ≠ ([] : Str) := by
  decide

/-- Claim C8 amended: the body is the lines carrying the 4-space indent; the
summary is the trim of the first body line that is non-empty AFTER trimming
(whitespace-only body lines do not claim the summary); and the message is
all body lines, blank ones included, indent stripped, joined with newlines
and trimmed. -/
theorem summary_message_amended (headerInfo : Str) :
    (parseSummaryMessage headerInfo).1 =
      trimChars (((bodyLinesOf headerInfo).filter
        (fun l => trimChars l ≠ [])).headD []) ∧
    (parseSummaryMessage headerInfo).2 = trimChars (joinLines (bodyLinesOf headerInfo)) := by
  constructor
  · show ((headerInfo.splitOn '\n').foldl msgStep ([], [])).1 = _
    rw [msgFold_summary (headerInfo.splitOn '\n') [] []]
    rw [if_pos rfl]
    rfl
  · show trimChars ((headerInfo.splitOn '\n').foldl msgStep ([], [])).2 = _
    rw [msgFold_message (headerInfo.splitOn '\n') [] []]
    rw [List.nil_append]
    by_cases hb : bodyOfLines (headerInfo.splitOn '\n') = []
    · rw [show bodyLinesOf headerInfo = bodyOfLines (headerInfo.splitOn '\n') from rfl, hb]
      rfl
    · rw [show bodyLinesOf headerInfo = bodyOfLines (headerInfo.splitOn '\n') from rfl]
      rw [flatMap_nl_snoc _ hb, trimChars_snoc_nl]

/-! ### Optional diff phases (C9) -/

/-- Claim C9: optional-diff failures never abort assembly.  With the diff
requested and its fetch failing, the returned detail keeps every mandatory
field of the core record, leaves diff unset, and surfaces the recoverable
warning; when on top the dedicated patch fetch also fails, the changed
files are returned untouched with the second warning; and a failed patch
fetch alone (file diffs requested without the main diff) likewise returns
the core record with every patch field untouched plus the warning. -/
theorem optional_diff_failures (core : GitCommitDetail) (ifd : Bool) (e e2 p : Str) :
    (finishDetail core true ifd (.error e) (.error e2) =
      ({ core with diff := none },
        [lit "Failed to get diff", lit "Failed to compute per-file patches"])) ∧
    ((finishDetail core true ifd (.error e) (.ok p)).1.diff = none ∧
      (finishDetail core true ifd (.error e) (.ok p)).1.hash = core.hash ∧
      (finishDetail core true ifd (.error e) (.ok p)).1.filesChanged = core.filesChanged ∧
      (finishDetail core true ifd (.error e) (.ok p)).1.insertions = core.insertions ∧
      (finishDetail core true ifd (.error e) (.ok p)).1.deletions = core.deletions ∧
      (finishDetail core true ifd (.error e) (.ok p)).1.summary = core.summary ∧
      (finishDetail core true ifd (.error e) (.ok p)).1.message = core.message ∧
      lit "Failed to get diff" ∈ (finishDetail core true ifd (.error e) (.ok p)).2) ∧
    (finishDetail core false true (.ok p) (.error e2) =
      ({ core with diff := none }, [lit "Failed to compute per-file patches"])) := by
  refine ⟨?_, ?_, ?_⟩
  · have h : applyOptionalDiffs true ifd core.changedFiles (.error e) (.error e2) =
        (none, core.changedFiles,
          [lit "Failed to get diff", lit "Failed to compute per-file patches"]) := by
      simp only [applyOptionalDiffs, Bool.or_true]
      rfl
    simp only [finishDetail, h]
  · have h : finishDetail core true ifd (.error e) (.ok p) =
        ({ core with
            diff := none,
            changedFiles :=
              (if p ≠ [] then
                core.changedFiles.map (setFilePatch (buildPatchIndex (splitPatches p)))
              else core.changedFiles) },
          [lit "Failed to get diff"]) := by
      by_cases hp : p ≠ []
      · simp [finishDetail, applyOptionalDiffs, hp]
      · push_neg at hp
        subst hp
        simp [finishDetail, applyOptionalDiffs]
    rw [h]
    exact ⟨rfl, rfl, rfl, rfl, rfl, rfl, rfl, List.mem_cons_self _ _⟩
  · have h : applyOptionalDiffs false true core.changedFiles (.ok p) (.error e2) =
        (none, core.changedFiles, [lit "Failed to compute per-file patches"]) := by
      rfl
    simp only [finishDetail, h]

/-- Claim C9 witness: a concrete core record through both failure shapes. -/
theorem optional_diff_failures_witness :
    (finishDetail
        ⟨lit "h", lit "h", lit "a", lit "ae", lit "t", lit "z", lit "c", lit "ce",
          lit "t2", lit "z2", lit "s", lit "m", [], lit "tr", 1, 2, 3, none,
          [⟨lit "M", lit "A", none, some 3, some 1, none⟩]⟩
        true false (.error (lit "boom")) (.error (lit "boom2")) =
      (⟨lit "h", lit "h", lit "a", lit "ae", lit "t", lit "z", lit "c", lit "ce",
          lit "t2", lit "z2", lit "s", lit "m", [], lit "tr", 1, 2, 3, none,
          [⟨lit "M", lit "A", none, some 3, some 1, none⟩]⟩,
        [lit "Failed to get diff", lit "Failed to compute per-file patches"])) :=
  (optional_diff_failures
    ⟨lit "h", lit "h", lit "a", lit "ae", lit "t", lit "z", lit "c", lit "ce",
      lit "t2", lit "z2", lit "s", lit "m", [], lit "tr", 1, 2, 3, none,
      [⟨lit "M", lit "A", none, some 3, some 1, none⟩]⟩
    false (lit "boom") (lit "boom2") (lit "p")).1

/-! ### Changed-file map order and uniqueness (C10) -/

theorem mem_dedupNew : ∀ (seen ks : List Str) (x : Str),
    x ∈ dedupNew seen ks ↔ x ∈ ks ∧ x ∉ seen
  | _, [], x => by simp [dedupNew]
  | seen, k :: ks, x => by
    by_cases hk : k ∈ seen
    · rw [show dedupNew seen (k :: ks) = dedupNew seen ks from by
        simp [dedupNew, hk]]
      rw [mem_dedupNew seen ks x]
      constructor
      · exact fun ⟨h1, h2⟩ => ⟨List.mem_cons_of_mem k h1, h2⟩
      · rintro ⟨h1, h2⟩
        rcases List.mem_cons.1 h1 with rfl | h1
        · exact absurd hk h2
        · exact ⟨h1, h2⟩
    · rw [show dedupNew seen (k :: ks) = k :: dedupNew (k :: seen) ks from by
        simp [dedupNew, hk]]
      rw [List.mem_cons, mem_dedupNew (k :: seen) ks x]
      constructor
      · rintro (rfl | ⟨h1, h2⟩)
        · exact ⟨List.mem_cons_self _ _, hk⟩
        · exact ⟨List.mem_cons_of_mem k h1,
            fun hc => h2 (List.mem_cons_of_mem k hc)⟩
      · rintro ⟨h1, h2⟩
        by_cases hx : x = k
        · exact Or.inl hx
        · rcases List.mem_cons.1 h1 with rfl | h1
          · exact absurd rfl hx
          · exact Or.inr ⟨h1, fun hc => by
              rcases List.mem_cons.1 hc with h | h
              · exact hx h
              · exact h2 h⟩

theorem dedupNew_nodup : ∀ (seen ks : List Str), (dedupNew seen ks).Nodup
  | _, [] => List.nodup_nil
  | seen, k :: ks => by
    by_cases hk : k ∈ seen
    · rw [show dedupNew seen (k :: ks) = dedupNew seen ks from by simp [dedupNew, hk]]
      exact dedupNew_nodup seen ks
    · rw [show dedupNew seen (k :: ks) = k :: dedupNew (k :: seen) ks from by
        simp [dedupNew, hk]]
      refine List.Nodup.cons ?_ (dedupNew_nodup (k :: seen) ks)
      intro hc
      exact ((mem_dedupNew (k :: seen) ks k).1 hc).2 (List.mem_cons_self _ _)

theorem dedupNew_congr : ∀ (s1 s2 ks : List Str), (∀ x, x ∈ s1 ↔ x ∈ s2) →
    dedupNew s1 ks = dedupNew s2 ks
  | _, _, [], _ => rfl
  | s1, s2, k :: ks, h => by
    by_cases hk : k ∈ s1
    · rw [show dedupNew s1 (k :: ks) = dedupNew s1 ks from by simp [dedupNew, hk],
        show dedupNew s2 (k :: ks) = dedupNew s2 ks from by simp [dedupNew, (h k).1 hk]]
      exact dedupNew_congr s1 s2 ks h
    · have hk2 : k ∉ s2 := fun hc => hk ((h k).2 hc)
      rw [show dedupNew s1 (k :: ks) = k :: dedupNew (k :: s1) ks from by
        simp [dedupNew, hk],
        show dedupNew s2 (k :: ks) = k :: dedupNew (k :: s2) ks from by
        simp [dedupNew, hk2]]
      rw [dedupNew_congr (k :: s1) (k :: s2) ks (fun x => by
        rw [List.mem_cons, List.mem_cons, h x])]

theorem assocGet_mem {β : Type} : ∀ (m : List (Str × β)) (k : Str) (v : β),
    assocGet m k = some v → (k, v) ∈ m
  | [], _, _, h => by cases h
  | (k0, v0) :: m, k, v, h => by
    by_cases h0 : k0 = k
    · rw [show assocGet ((k0, v0) :: m) k = some v0 from by
        simp [assocGet, h0]] at h
      cases h
      rw [← h0]
      exact List.mem_cons_self _ _
    · rw [show assocGet ((k0, v0) :: m) k = assocGet m k from by
        simp [assocGet, h0]] at h
      exact List.mem_cons_of_mem _ (assocGet_mem m k v h)

/-- The entry stored for a path keeps the path as its path field. -/
theorem getD_path (m : List (Str × ChangedFile)) (k : Str)
    (hinv : ∀ e ∈ m, (e : Str × ChangedFile).2.path = e.1) :
    ((assocGet m k).getD (emptyChange k)).path = k := by
  cases hg : assocGet m k with
  | none => rfl
  | some old =>
    rw [Option.getD_some]
    exact hinv (k, old) (assocGet_mem m k old hg)

theorem applyNameStatusLine_shape (m : List (Str × ChangedFile)) (line : Str)
    (hinv : ∀ e ∈ m, (e : Str × ChangedFile).2.path = e.1) :
    (nameStatusKey line = none ∧ applyNameStatusLine m line = m) ∨
    (∃ k v, nameStatusKey line = some k ∧ applyNameStatusLine m line = assocSet m k v ∧
      v.path = k) := by
  by_cases h1 : trimChars line = []
  · exact Or.inl ⟨by simp [nameStatusKey, h1], by simp [applyNameStatusLine, h1]⟩
  · by_cases h2 : 2 ≤ (line.splitOn '\t').length
    · by_cases h3 : ((line.splitOn '\t').headD []).take 1 = lit "R" ∨
          ((line.splitOn '\t').headD []).take 1 = lit "C"
      · refine Or.inr
          ⟨jsOrStr ((line.splitOn '\t').getD 2 []) ((line.splitOn '\t').getD 1 []),
           { (assocGet m (jsOrStr ((line.splitOn '\t').getD 2 [])
                ((line.splitOn '\t').getD 1 []))).getD
              (emptyChange (jsOrStr ((line.splitOn '\t').getD 2 [])
                ((line.splitOn '\t').getD 1 []))) with
              status := ((line.splitOn '\t').headD []).take 1,
              oldPath := some ((line.splitOn '\t').getD 1 []) }, ?_, ?_, ?_⟩
        · simp only [nameStatusKey]
          rw [if_neg h1, if_pos h2, if_pos h3]
        · simp only [applyNameStatusLine]
          rw [if_neg h1, if_pos h2, if_pos h3]
        · exact getD_path m _ hinv
      · refine Or.inr
          ⟨(line.splitOn '\t').getD 1 [],
           { (assocGet m ((line.splitOn '\t').getD 1 [])).getD
              (emptyChange ((line.splitOn '\t').getD 1 [])) with
              status := ((line.splitOn '\t').headD []).take 1 }, ?_, ?_, ?_⟩
        · simp only [nameStatusKey]
          rw [if_neg h1, if_pos h2, if_neg h3]
        · simp only [applyNameStatusLine]
          rw [if_neg h1, if_pos h2, if_neg h3]
        · exact getD_path m _ hinv
    · refine Or.inl ⟨?_, ?_⟩
      · simp only [nameStatusKey]
        rw [if_neg h1, if_neg h2]
      · simp only [applyNameStatusLine]
        rw [if_neg h1, if_neg h2]

theorem applyNumstatLine_shape (m : List (Str × ChangedFile)) (line : Str)
    (hinv : ∀ e ∈ m, (e : Str × ChangedFile).2.path = e.1) :
    (numstatKey line = none ∧ applyNumstatLine m line = m) ∨
    (∃ k v, numstatKey line = some k ∧ applyNumstatLine m line = assocSet m k v ∧
      v.path = k ∧
      (∀ old, assocGet m k = some old → v.status = old.status) ∧
      (assocGet m k = none → v.status = [])) := by
  by_cases h1 : trimChars line = []
  · exact Or.inl ⟨by simp [numstatKey, h1], by simp [applyNumstatLine, h1]⟩
  · by_cases h2 : 3 ≤ (line.splitOn '\t').length
    · refine Or.inr
        ⟨(if 4 ≤ (line.splitOn '\t').length then (line.splitOn '\t').getD 3 []
            else (line.splitOn '\t').getD 2 []),
         numstatMergeValue
           ((assocGet m (if 4 ≤ (line.splitOn '\t').length then (line.splitOn '\t').getD 3 []
              else (line.splitOn '\t').getD 2 [])).getD
            (emptyChange (if 4 ≤ (line.splitOn '\t').length then (line.splitOn '\t').getD 3 []
              else (line.splitOn '\t').getD 2 [])))
           (if (line.splitOn '\t').headD [] = lit "-" then none
            else jsParseInt ((line.splitOn '\t').headD []))
           (if (line.splitOn '\t').getD 1 [] = lit "-" then none
            else jsParseInt ((line.splitOn '\t').getD 1 []))
           (if 4 ≤ (line.splitOn '\t').length then some ((line.splitOn '\t').getD 2 [])
            else none), ?_, ?_, ?_, ?_, ?_⟩
      · simp only [numstatKey]
        rw [if_neg h1, if_pos h2]
      · simp only [applyNumstatLine]
        rw [if_neg h1, if_pos h2]
      · rw [(numstatMergeValue_fields _ _ _ _).2.1]
        exact getD_path m _ hinv
      · intro old hold
        rw [(numstatMergeValue_fields _ _ _ _).1, hold, Option.getD_some]
      · intro hnone
        rw [(numstatMergeValue_fields _ _ _ _).1, hnone]
        rfl
    · refine Or.inl ⟨?_, ?_⟩
      · simp only [numstatKey]
        rw [if_neg h1, if_neg h2]
      · simp only [applyNumstatLine]
        rw [if_neg h1, if_neg h2]

/-- Generic key/order fold lemma for the two merge phases: the map keys after
folding are the old keys followed by the first occurrences of the new lines
keys, in line order, and the path-field invariant is maintained. -/
theorem foldl_keys (step : List (Str × ChangedFile) → Str → List (Str × ChangedFile))
    (keyOf : Str → Option Str)
    (hshape : ∀ m line, (∀ e ∈ m, (e : Str × ChangedFile).2.path = e.1) →
      (keyOf line = none ∧ step m line = m) ∨
      (∃ k v, keyOf line = some k ∧ step m line = assocSet m k v ∧ v.path = k)) :
    ∀ (lines : List Str) (m : List (Str × ChangedFile)),
      (∀ e ∈ m, (e : Str × ChangedFile).2.path = e.1) →
      ((lines.foldl step m).map Prod.fst =
          m.map Prod.fst ++ dedupNew (m.map Prod.fst) (lines.filterMap keyOf)) ∧
        (∀ e ∈ lines.foldl step m, (e : Str × ChangedFile).2.path = e.1)
  | [], m, hinv =>
    ⟨by
      rw [show dedupNew (m.map Prod.fst) (List.filterMap keyOf []) = [] from rfl,
        List.append_nil]
      rfl, hinv⟩
  | line :: lines, m, hinv => by
    rcases hshape m line hinv with ⟨hk, hm⟩ | ⟨k, v, hk, hm, hv⟩
    · rw [List.foldl_cons, hm, List.filterMap_cons, hk]
      exact foldl_keys step keyOf hshape lines m hinv
    · have hinv2 : ∀ e ∈ assocSet m k v, (e : Str × ChangedFile).2.path = e.1 := by
        intro e he
        rcases mem_assocSet k v m e he with h | h
        · exact hinv e h
        · rw [h]
          exact hv
      obtain ⟨ih1, ih2⟩ := foldl_keys step keyOf hshape lines (assocSet m k v) hinv2
      rw [List.foldl_cons, hm, List.filterMap_cons, hk]
      refine ⟨?_, ih2⟩
      rw [ih1, map_fst_assocSet]
      by_cases hmem : k ∈ m.map Prod.fst
      · rw [if_pos hmem]
        rw [show dedupNew (m.map Prod.fst) (k :: lines.filterMap keyOf) =
            dedupNew (m.map Prod.fst) (lines.filterMap keyOf) from by
          simp [dedupNew, hmem]]
      · rw [if_neg hmem]
        rw [show dedupNew (m.map Prod.fst) (k :: lines.filterMap keyOf) =
            k :: dedupNew (k :: m.map Prod.fst) (lines.filterMap keyOf) from by
          simp [dedupNew, hmem]]
        rw [dedupNew_congr (m.map Prod.fst ++ [k]) (k :: m.map Prod.fst) _ (fun x => by
          rw [List.mem_append, List.mem_singleton, List.mem_cons]
          tauto)]
        simp [List.append_assoc]

/-- Entries the numstat phase creates for keys outside a reference key set
carry the empty status. -/
theorem foldl_numstat_status : ∀ (lines : List Str) (m0 : List (Str × ChangedFile))
    (keys0 : List Str),
    (∀ e ∈ m0, (e : Str × ChangedFile).2.path = e.1) →
    (∀ e ∈ m0, (e : Str × ChangedFile).1 ∉ keys0 → e.2.status = []) →
    ∀ e ∈ lines.foldl applyNumstatLine m0, (e : Str × ChangedFile).1 ∉ keys0 →
      e.2.status = []
  | [], m0, keys0, _, hstat => by
    intro e he
    exact hstat e he
  | line :: lines, m0, keys0, hinv, hstat => by
    rcases applyNumstatLine_shape m0 line hinv with ⟨_, hm⟩ | ⟨k, v, _, hm, hv, hsome, hnone⟩
    · rw [List.foldl_cons, hm]
      exact foldl_numstat_status lines m0 keys0 hinv hstat
    · have hinv2 : ∀ e ∈ assocSet m0 k v, (e : Str × ChangedFile).2.path = e.1 := by
        intro e he
        rcases mem_assocSet k v m0 e he with h | h
        · exact hinv e h
        · rw [h]; exact hv
      have hstat2 : ∀ e ∈ assocSet m0 k v, (e : Str × ChangedFile).1 ∉ keys0 →
          e.2.status = [] := by
        intro e he hk0
        rcases mem_assocSet k v m0 e he with h | h
        · exact hstat e h hk0
        · subst h
          cases hg : assocGet m0 k with
          | none => exact hnone hg
          | some old =>
            rw [hsome old hg]
            exact hstat (k, old) (assocGet_mem m0 k old hg) hk0
      rw [List.foldl_cons, hm]
      exact foldl_numstat_status lines (assocSet m0 k v) keys0 hinv2 hstat2

/-- Claim C10: each current path appears at most once in changedFiles; the
order is the insertion order of the merged map -- first the name-status
paths in listing order (first occurrences), then the paths only the numstat
listing mentions, in numstat order; and a path absent from the name-status
listing gets a ChangedFile whose status is the empty string. -/
theorem changed_files_order (nameStatusOut numstatOut : Str) :
    ((changedFilesOf nameStatusOut numstatOut).map (fun f => f.path)).Nodup ∧
    (changedFilesOf nameStatusOut numstatOut).map (fun f => f.path) =
      dedupNew [] (nsKeys nameStatusOut) ++
        dedupNew (nsKeys nameStatusOut) (nuKeys numstatOut) ∧
    ∀ f ∈ changedFilesOf nameStatusOut numstatOut,
      f.path ∉ nsKeys nameStatusOut → f.status = [] := by
  obtain ⟨hk1, hinv1⟩ := foldl_keys applyNameStatusLine nameStatusKey
    applyNameStatusLine_shape (nameStatusOut.splitOn '\n') [] (by simp)
  obtain ⟨hk2, hinv2⟩ := foldl_keys applyNumstatLine
    numstatKey
    (fun m line hinv => by
      rcases applyNumstatLine_shape m line hinv with ⟨ha, hb⟩ | ⟨k, v, ha, hb, hc, -, -⟩
      · exact Or.inl ⟨ha, hb⟩
      · exact Or.inr ⟨k, v, ha, hb, hc⟩)
    (numstatOut.splitOn '\n')
    ((nameStatusOut.splitOn '\n').foldl applyNameStatusLine []) hinv1
  rw [List.map_nil, List.nil_append] at hk1
  have hpaths : (changedFilesOf nameStatusOut numstatOut).map (fun f => f.path) =
      (buildPathMap nameStatusOut numstatOut).map Prod.fst := by
    rw [changedFilesOf, List.map_map]
    exact List.map_congr_left (fun e he => hinv2 e he)
  have hkeys : (buildPathMap nameStatusOut numstatOut).map Prod.fst =
      dedupNew [] (nsKeys nameStatusOut) ++
        dedupNew (nsKeys nameStatusOut) (nuKeys numstatOut) := by
    rw [show buildPathMap nameStatusOut numstatOut =
      (numstatOut.splitOn '\n').foldl applyNumstatLine
        ((nameStatusOut.splitOn '\n').foldl applyNameStatusLine []) from rfl]
    rw [hk2, hk1]
    unfold nsKeys nuKeys
    rw [dedupNew_congr
      (dedupNew [] ((nameStatusOut.splitOn '\n').filterMap nameStatusKey))
      ((nameStatusOut.splitOn '\n').filterMap nameStatusKey)
      ((numstatOut.splitOn '\n').filterMap numstatKey)
      (fun x => by
        rw [mem_dedupNew]
        simp)]
  refine ⟨?_, by rw [hpaths, hkeys], ?_⟩
  · rw [hpaths, hkeys]
    rw [List.nodup_append]
    refine ⟨dedupNew_nodup _ _, dedupNew_nodup _ _, ?_⟩
    intro x hx hx2
    have h1 := (mem_dedupNew _ _ x).1 hx
    have h2 := (mem_dedupNew _ _ x).1 hx2
    exact h2.2 h1.1
  · intro f hf hns
    rw [changedFilesOf] at hf
    obtain ⟨e, he, rfl⟩ := List.mem_map.1 hf
    have hstat := foldl_numstat_status (numstatOut.splitOn '\n')
      ((nameStatusOut.splitOn '\n').foldl applyNameStatusLine [])
      (nsKeys nameStatusOut) hinv1
      (fun e2 he2 hk0 => by
        exfalso
        apply hk0
        have : e2.1 ∈ ((nameStatusOut.splitOn '\n').foldl applyNameStatusLine
            []).map Prod.fst := List.mem_map.2 ⟨e2, he2, rfl⟩
        rw [hk1] at this
        exact ((mem_dedupNew _ _ _).1 this).1)
      e he
    apply hstat
    rw [← hinv2 e he]
    exact hns
